import Mathlib

/-!
Shallow embedding of the responsive grid-packing layout engine of the
`seanaye/personal-site` repository (crates `grid` and `photogrid`).

The definitions below are translated from `src/grid/src/lib.rs` and
`src/photogrid/src/lib.rs`.  Rust `usize` values are modelled as `Nat`
(no arithmetic in the engine can overflow a 64-bit word for the inputs
considered, and the engine performs no wrapping arithmetic); Rust
iterators are modelled as `List`s; code that can panic (`unwrap`,
`expect`, division by zero) is modelled with `Option`, `none` standing
for the panic.
-/

namespace PersonalSite

/-- `Dimension` from `grid/src/lib.rs`. -/
structure Dimension where
  width : Nat
  height : Nat
deriving DecidableEq, Repr

/-- `AspectRatio` from `grid/src/lib.rs`. -/
structure AspectRatio where
  width : Nat
  height : Nat
deriving DecidableEq, Repr

/-- `Coord` from `grid/src/lib.rs`. -/
structure Coord where
  x : Nat
  y : Nat
deriving DecidableEq, Repr

/-- `Orientation` from `grid/src/lib.rs`. -/
inductive Orientation where
  | Portrait
  | Landscape
deriving DecidableEq, Repr

/-- `Orientation`'s `FromAspectRatio` impl (`grid/src/lib.rs` lines 90-97):
`Less | Equal => Portrait, Greater => Landscape` on `width.cmp(&height)`. -/
def Orientation.from_aspect_ratio (ratio : AspectRatio) : Orientation :=
  match compare ratio.width ratio.height with
  | .lt => .Portrait
  | .eq => .Portrait
  | .gt => .Landscape

/-- The `Size` trait: width and height in grid-cell units. -/
class Size (σ : Type) where
  width : σ → Nat
  height : σ → Nat

/-- `Size::orientation` default method (`grid/src/lib.rs` lines 495-501):
`Greater | Equal => Landscape, Less => Portrait` on `width().cmp(&height())`. -/
def Size.orientation {σ : Type} [Size σ] (s : σ) : Orientation :=
  match compare (Size.width s) (Size.height s) with
  | .gt => .Landscape
  | .eq => .Landscape
  | .lt => .Portrait

/-- `NormalizedAspectRatio` from `grid/src/lib.rs`. -/
structure NormalizedAspectRatio where
  orientation : Orientation
  long_edge : Nat
deriving DecidableEq, Repr

instance : Size NormalizedAspectRatio where
  width n := match n.orientation with
    | .Portrait => 1
    | .Landscape => n.long_edge
  height n := match n.orientation with
    | .Portrait => n.long_edge
    | .Landscape => 1

/-- `RoundedAspectRatio<SIZE>` from `grid/src/lib.rs`; the const generic
`SIZE` is passed explicitly to the functions that use it. -/
structure RoundedAspectRatio where
  long_edge : Nat
  orientation : Orientation
deriving DecidableEq, Repr

/-- `RoundedAspectRatio::<SIZE>::width` (`grid/src/lib.rs` lines 565-571). -/
def RoundedAspectRatio.width (SIZE : Nat) (r : RoundedAspectRatio) : Nat :=
  match r.orientation with
  | .Portrait => SIZE
  | .Landscape => r.long_edge

/-- `RoundedAspectRatio::<SIZE>::height` (`grid/src/lib.rs` lines 573-578). -/
def RoundedAspectRatio.height (SIZE : Nat) (r : RoundedAspectRatio) : Nat :=
  match r.orientation with
  | .Portrait => r.long_edge
  | .Landscape => SIZE

/-- `RoundedAspectRatio::<SIZE>::from_aspect_ratio` (`grid/src/lib.rs`
lines 581-602).  The source computes `divisor = min / SIZE` and then
`max / divisor`; when `SIZE = 0` or `divisor = 0` the corresponding Rust
division panics, modelled here by `none`. -/
def RoundedAspectRatio.from_aspect_ratio (SIZE : Nat) (ratio : AspectRatio) :
    Option RoundedAspectRatio :=
  let orientation := Orientation.from_aspect_ratio ratio
  let mm : Nat × Nat :=
    match orientation with
    | .Portrait => (ratio.width, ratio.height)
    | .Landscape => (ratio.height, ratio.width)
  if SIZE = 0 then none
  else
    let divisor := mm.1 / SIZE
    if divisor = 0 then none
    else
      let long_edge := mm.2 / divisor + (if mm.2 % divisor > 0 then 1 else 0)
      some { long_edge := long_edge, orientation := orientation }

/-- `GridContent` from `grid/src/lib.rs`. -/
structure GridContent (T : Type) where
  data : T
  size : Dimension
  origin : Coord
deriving DecidableEq, Repr

/-- `GridContent::map`. -/
def GridContent.map {T U : Type} (c : GridContent T) (cb : T → U) : GridContent U :=
  { data := cb c.data, size := c.size, origin := c.origin }

/-- `GridContent::height_range`, as the pair (start, end). -/
def GridContent.height_range {T : Type} (c : GridContent T) : Nat × Nat :=
  (c.origin.y, c.origin.y + c.size.height)

/-- `Intersect for Range`: `self.start < other.end && other.start < self.end`. -/
def does_intersect (a b : Nat × Nat) : Bool :=
  decide (a.1 < b.2) && decide (b.1 < a.2)

/-- `Grid` from `grid/src/lib.rs`: a flat row-major buffer. -/
structure Grid (T : Type) where
  width : Nat
  contents : List T
deriving DecidableEq, Repr

namespace Grid

/-- `Grid::new`. -/
def new (T : Type) (width : Nat) : Grid T :=
  { width := width, contents := [] }

/-- `Grid::to_dimension`: flat index to coordinates. -/
def to_dimension {T : Type} (g : Grid T) (idx : Nat) : Coord :=
  { x := idx % g.width, y := idx / g.width }

/-- `Grid::to_index`: coordinates to flat index. -/
def to_index {T : Type} (g : Grid T) (c : Coord) : Nat :=
  c.y * g.width + c.x

/-- `Grid::dimensions_iter`: the flat indices `to_index ⟨x, y⟩ + offset`
for `y < height`, `x < width` of the given size, in row-major order. -/
def dimensions_iter {T σ : Type} [Size σ] (g : Grid T) (dimension : σ)
    (offset : Nat) : List Nat :=
  (List.range (Size.height dimension)).flatMap
    (fun y => (List.range (Size.width dimension)).map
      (fun x => g.to_index { x := x, y := y } + offset))

/-- `Grid::available`: indices of the unoccupied cells. -/
def available {T : Type} (g : Grid (Option T)) : List Nat :=
  g.contents.enum.filterMap
    (fun e => match e.2.isNone with
      | true => some e.1
      | false => none)

/-- `Grid::extend_to`: grow `contents` with empty cells up to and
including the row containing `idx`. -/
def extend_to {T : Type} (g : Grid (Option T)) (idx : Nat) : Grid (Option T) :=
  let y := (g.to_dimension idx).y
  let end_coord := (y + 1) * g.width
  { g with contents := g.contents ++ List.replicate (end_coord - g.contents.length) none }

/-- `Grid::does_fit_at` (`grid/src/lib.rs` lines 204-215). -/
def does_fit_at {T σ : Type} [Size σ] (g : Grid (Option T)) (idx : Nat)
    (dimension : σ) : Bool :=
  if (g.to_dimension idx).x + Size.width dimension > g.width then false
  else
    (g.dimensions_iter dimension idx).all
      (fun i => match g.contents.get? i with
        | none => true
        | some none => true
        | some (some _) => false)

/-- `Grid::insert_at` (`grid/src/lib.rs` lines 217-230); the `Err` case (an
empty rectangle) makes the caller's `expect` panic, modelled by `none`.
`List.set` is a no-op out of bounds, like the source's `get_mut` skip. -/
def insert_at {T σ : Type} [Size σ] (g : Grid (Option T)) (index : Nat) (id : T)
    (dimension : σ) : Option (Grid (Option T)) :=
  match (g.dimensions_iter dimension index).getLast? with
  | none => none
  | some last =>
    let g2 := g.extend_to last
    let c2 := (g2.dimensions_iter dimension index).foldl
      (fun c i => c.set i (some id)) g2.contents
    some { g2 with contents := c2 }

/-- One step of `Grid::add_all`: place item number `idx` of size `el`. -/
def add_step {σ : Type} [Size σ] (g : Grid (Option Nat)) (idx : Nat)
    (el : σ) : Option (Grid (Option Nat)) :=
  match g.available.find? (fun e => g.does_fit_at e el) with
  | some a => g.insert_at a idx el
  | none =>
    let len := g.contents.length
    (g.extend_to len).insert_at len idx el

/-- `Grid::add_all` (`grid/src/lib.rs` lines 233-255). -/
def add_all {σ : Type} [Size σ] (g : Grid (Option Nat)) (data : List σ) :
    Option (Grid (Option Nat)) :=
  data.enum.foldlM (fun g p => g.add_step p.1 p.2) g

/-- `Grid::touching` (`grid/src/lib.rs` lines 150-172).  The source
unwraps the value at `top_left`, which from the visitor is always in
bounds; out of bounds the model returns `top_left` (the source would
panic).  The source's unbounded downward scan `(top_left.y..)` always
stops within `contents.length + 1` rows because `get` returns `None`
there, so the model scans that far. -/
def touching (g : Grid (Option Nat)) (top_left : Coord) : Coord :=
  match g.contents.get? (g.to_index top_left) with
  | none => top_left
  | some val =>
    let right_extent :=
      (((List.range' top_left.x (g.width - top_left.x)).map
        (fun x => ({ x := x, y := top_left.y } : Coord))).takeWhile
        (fun coord => g.contents.get? (g.to_index coord) == some val)).getLast?
    let bottom_extent :=
      (((List.range' top_left.y (g.contents.length + 1)).map
        (fun y => ({ x := top_left.x, y := y } : Coord))).takeWhile
        (fun coord => g.contents.get? (g.to_index coord) == some val)).getLast?
    match right_extent, bottom_extent with
    | some cr, some cb => { x := cr.x, y := cb.y }
    | _, _ => top_left

end Grid

/-- `Coord::iter_area`: all coords of the rectangle spanned by `tl` and
`br` inclusive, row-major. -/
def Coord.iter_area (tl br : Coord) : List Coord :=
  (List.range' tl.y (br.y + 1 - tl.y)).flatMap
    (fun y => (List.range' tl.x (br.x + 1 - tl.x)).map
      (fun x => ({ x := x, y := y } : Coord)))

lemma Coord.mem_iter_area {tl br c : Coord} (hx : tl.x ≤ br.x) (hy : tl.y ≤ br.y) :
    c ∈ Coord.iter_area tl br ↔
      tl.x ≤ c.x ∧ c.x ≤ br.x ∧ tl.y ≤ c.y ∧ c.y ≤ br.y := by
  unfold Coord.iter_area
  simp only [List.mem_flatMap, List.mem_map, List.mem_range'_1]
  constructor
  · rintro ⟨y, ⟨hy1, hy2⟩, x, ⟨hx1, hx2⟩, rfl⟩
    dsimp only
    refine ⟨hx1, by omega, hy1, by omega⟩
  · rintro ⟨h1, h2, h3, h4⟩
    exact ⟨c.y, ⟨h3, by omega⟩, c.x, ⟨h1, by omega⟩, rfl⟩

namespace Grid

lemma to_index_to_dimension {T : Type} (g : Grid T) (i : Nat) :
    g.to_index (g.to_dimension i) = i := by
  unfold to_index to_dimension
  simp only
  rw [Nat.mul_comm]
  exact Nat.div_add_mod i g.width

lemma to_dimension_x_lt {T : Type} (g : Grid T) (i : Nat) (hW : 0 < g.width) :
    (g.to_dimension i).x < g.width :=
  Nat.mod_lt _ hW

/-- Members of a `takeWhile` are members of the list satisfying the predicate. -/
lemma mem_and_pred_of_getLast?_takeWhile {α : Type} (p : α → Bool) (l : List α) (a : α)
    (h : (l.takeWhile p).getLast? = some a) : a ∈ l ∧ p a = true := by
  have hmem : a ∈ l.takeWhile p := by
    obtain ⟨hne, rfl⟩ := List.mem_getLast?_eq_getLast (Option.mem_def.mpr h)
    exact List.getLast_mem hne
  exact ⟨(List.takeWhile_prefix p).sublist.mem hmem, List.mem_takeWhile_imp hmem⟩

lemma touching_x_ge (g : Grid (Option Nat)) (tl : Coord) :
    tl.x ≤ (g.touching tl).x := by
  unfold touching
  cases hv : g.contents.get? (g.to_index tl) with
  | none => simp
  | some val =>
    simp only
    cases hr : (((List.range' tl.x (g.width - tl.x)).map
        (fun x => ({ x := x, y := tl.y } : Coord))).takeWhile
        (fun coord => g.contents.get? (g.to_index coord) == some val)).getLast? with
    | none => simp
    | some cr =>
      cases hb : (((List.range' tl.y (g.contents.length + 1)).map
          (fun y => ({ x := tl.x, y := y } : Coord))).takeWhile
          (fun coord => g.contents.get? (g.to_index coord) == some val)).getLast? with
      | none => simp
      | some cb =>
        simp only
        have := (mem_and_pred_of_getLast?_takeWhile _ _ _ hr).1
        simp only [List.mem_map, List.mem_range'_1] at this
        obtain ⟨x0, ⟨hx1, _⟩, rfl⟩ := this
        exact hx1

lemma touching_y_ge (g : Grid (Option Nat)) (tl : Coord) :
    tl.y ≤ (g.touching tl).y := by
  unfold touching
  cases hv : g.contents.get? (g.to_index tl) with
  | none => simp
  | some val =>
    simp only
    cases hr : (((List.range' tl.x (g.width - tl.x)).map
        (fun x => ({ x := x, y := tl.y } : Coord))).takeWhile
        (fun coord => g.contents.get? (g.to_index coord) == some val)).getLast? with
    | none => simp
    | some cr =>
      cases hb : (((List.range' tl.y (g.contents.length + 1)).map
          (fun y => ({ x := tl.x, y := y } : Coord))).takeWhile
          (fun coord => g.contents.get? (g.to_index coord) == some val)).getLast? with
      | none => simp
      | some cb =>
        simp only
        have := (mem_and_pred_of_getLast?_takeWhile _ _ _ hb).1
        simp only [List.mem_map, List.mem_range'_1] at this
        obtain ⟨y0, ⟨hy1, _⟩, rfl⟩ := this
        exact hy1

/-- Either `touching` degenerates to `top_left`, or the bottom extent
names an in-bounds cell of the grid. -/
lemma touching_col_lt (g : Grid (Option Nat)) (tl : Coord) :
    g.touching tl = tl ∨
      g.to_index { x := tl.x, y := (g.touching tl).y } < g.contents.length := by
  unfold touching
  cases hv : g.contents.get? (g.to_index tl) with
  | none => simp
  | some val =>
    simp only
    cases hr : (((List.range' tl.x (g.width - tl.x)).map
        (fun x => ({ x := x, y := tl.y } : Coord))).takeWhile
        (fun coord => g.contents.get? (g.to_index coord) == some val)).getLast? with
    | none => simp
    | some cr =>
      cases hb : (((List.range' tl.y (g.contents.length + 1)).map
          (fun y => ({ x := tl.x, y := y } : Coord))).takeWhile
          (fun coord => g.contents.get? (g.to_index coord) == some val)).getLast? with
      | none => simp
      | some cb =>
        simp only
        right
        have := mem_and_pred_of_getLast?_takeWhile _ _ _ hb
        obtain ⟨hmem, hpred⟩ := this
        simp only [List.mem_map, List.mem_range'_1] at hmem
        obtain ⟨y0, ⟨_, _⟩, rfl⟩ := hmem
        have : g.contents.get? (g.to_index { x := tl.x, y := y0 }) = some val := by
          exact eq_of_beq hpred
        have := List.get?_eq_some.mp this
        exact this.1

/-- Termination measure helper for the visitor: a strict upper bound (plus one)
on the cursor positions the visitor can still be at. -/
def seenBound (g : Grid (Option Nat)) (seen : List Nat) : Nat :=
  seen.foldr (fun s m => max (s + 2) m) (g.contents.length + 1)

lemma seenBound_base (g : Grid (Option Nat)) (seen : List Nat) :
    g.contents.length + 1 ≤ seenBound g seen := by
  induction seen with
  | nil => exact Nat.le_refl _
  | cons s rest ih => exact le_trans ih (le_max_right _ _)

lemma seenBound_mem (g : Grid (Option Nat)) {seen : List Nat} {s : Nat}
    (h : s ∈ seen) : s + 2 ≤ seenBound g seen := by
  induction seen with
  | nil => cases h
  | cons a rest ih =>
    rcases List.mem_cons.mp h with rfl | h2
    · exact le_max_left _ _
    · exact le_trans (ih h2) (le_max_right _ _)

lemma seenBound_fold_max (g : Grid (Option Nat)) (seen : List Nat) (b B : Nat) :
    seen.foldr (fun s m => max (s + 2) m) (max b B) =
      max (seen.foldr (fun s m => max (s + 2) m) b) B := by
  induction seen with
  | nil => rfl
  | cons a rest ih => simp only [List.foldr_cons, ih, Nat.max_assoc]

lemma seenBound_foldr_mono (seen : List Nat) {b b2 : Nat} (h : b ≤ b2) :
    seen.foldr (fun s m => max (s + 2) m) b ≤
      seen.foldr (fun s m => max (s + 2) m) b2 := by
  induction seen with
  | nil => exact h
  | cons a rest ih => exact max_le_max (le_refl _) ih

lemma seenBound_append_le (g : Grid (Option Nat)) (seen l2 : List Nat) (B : Nat)
    (h : ∀ s ∈ l2, s + 2 ≤ B) :
    seenBound g (seen ++ l2) ≤ max (seenBound g seen) B := by
  unfold seenBound
  rw [List.foldr_append]
  have hinner : l2.foldr (fun s m => max (s + 2) m) (g.contents.length + 1) ≤
      max (g.contents.length + 1) B := by
    induction l2 with
    | nil => exact le_max_left _ _
    | cons a rest ih =>
      simp only [List.foldr_cons]
      have ha := h a (List.mem_cons_self a rest)
      have hrest := ih (fun s hs => h s (List.mem_cons_of_mem a hs))
      exact max_le (le_trans ha (le_max_right _ _)) hrest
  calc seen.foldr (fun s m => max (s + 2) m)
        (l2.foldr (fun s m => max (s + 2) m) (g.contents.length + 1))
      ≤ seen.foldr (fun s m => max (s + 2) m) (max (g.contents.length + 1) B) :=
        seenBound_foldr_mono seen hinner
    _ = max (seen.foldr (fun s m => max (s + 2) m) (g.contents.length + 1)) B :=
        seenBound_fold_max g seen _ _
    _ = max (seenBound g seen) B := rfl

/-- The termination argument for the visitor: one emission step strictly
decreases `seenBound g seen - cur`. -/
lemma visit_step_decrease (g : Grid (Option Nat)) (seen : List Nat) (cur : Nat)
    (hcur : cur < g.contents.length) :
    seenBound g
        (seen ++ (Coord.iter_area (g.to_dimension cur)
          (g.touching (g.to_dimension cur))).map g.to_index)
      - (cur + (1 + (g.touching (g.to_dimension cur)).x - (g.to_dimension cur).x))
      < seenBound g seen - cur := by
  have hx := g.touching_x_ge (g.to_dimension cur)
  have hy := g.touching_y_ge (g.to_dimension cur)
  have hcol := g.touching_col_lt (g.to_dimension cur)
  have hti := g.to_index_to_dimension cur
  have hbase := seenBound_base g seen
  generalize hbr : g.touching (g.to_dimension cur) = br at hx hy hcol ⊢
  generalize htl : g.to_dimension cur = tl at hx hy hcol hti ⊢
  rcases hcol with hdeg | hcol
  · -- degenerate case: `touching` returned `top_left` itself
    rw [hdeg]
    have harea : ∀ s ∈ (Coord.iter_area tl tl).map g.to_index, s + 2 ≤ seenBound g seen := by
      intro s hs
      obtain ⟨c, hc, rfl⟩ := List.mem_map.mp hs
      rw [Coord.mem_iter_area (le_refl _) (le_refl _)] at hc
      have hceq : c = tl := by
        cases c; cases tl
        simp only [Coord.mk.injEq]
        dsimp only at hc
        omega
      subst hceq
      rw [hti]
      omega
    have hb := seenBound_append_le g seen _ _ harea
    rw [max_self] at hb
    omega
  · -- the bottom extent is an in-bounds cell
    have harea : ∀ s ∈ (Coord.iter_area tl br).map g.to_index,
        s + 2 ≤ g.contents.length + (1 + br.x - tl.x) := by
      intro s hs
      obtain ⟨c, hc, rfl⟩ := List.mem_map.mp hs
      rw [Coord.mem_iter_area hx hy] at hc
      obtain ⟨h1, h2, h3, h4⟩ := hc
      have hmul : c.y * g.width ≤ br.y * g.width := Nat.mul_le_mul_right _ h4
      unfold Grid.to_index at hcol ⊢
      dsimp only at hcol ⊢
      omega
    have hb := seenBound_append_le g seen _ _ harea
    rcases Nat.le_total (g.contents.length + (1 + br.x - tl.x)) (seenBound g seen) with hle | hle
    · rw [max_eq_left hle] at hb
      omega
    · rw [max_eq_right hle] at hb
      omega

/-- The `GridVisitor` iterator of `grid/src/lib.rs` (lines 296-334), run to
exhaustion from state `(seen, cur)`.  The source's `HashSet` of seen indices
is modelled as a list (only membership is used).  The two nested matches of
the source (`contents.get(self.cur)?` and the final `match this`) are merged
into one match on `Option (Option Nat)`. -/
def visit_from (g : Grid (Option Nat)) (seen : List Nat) (cur : Nat) :
    List (GridContent Nat) :=
  if hseen : cur ∈ seen then g.visit_from seen (cur + 1)
  else
    match hget : g.contents.get? cur with
    | none => []
    | some (some val) =>
        { data := val,
          size := { width := 1 + (g.touching (g.to_dimension cur)).x - (g.to_dimension cur).x,
                    height := 1 + (g.touching (g.to_dimension cur)).y - (g.to_dimension cur).y },
          origin := g.to_dimension cur } ::
          g.visit_from
            (seen ++ (Coord.iter_area (g.to_dimension cur)
              (g.touching (g.to_dimension cur))).map g.to_index)
            (cur + (1 + (g.touching (g.to_dimension cur)).x - (g.to_dimension cur).x))
    | some none =>
        g.visit_from
          (seen ++ (Coord.iter_area (g.to_dimension cur)
            (g.touching (g.to_dimension cur))).map g.to_index)
          (cur + (1 + (g.touching (g.to_dimension cur)).x - (g.to_dimension cur).x))
termination_by seenBound g seen - cur
decreasing_by
  · have h2 := seenBound_mem g hseen
    have h3 := seenBound_base g seen
    omega
  · exact visit_step_decrease g seen cur (List.get?_eq_some.mp hget).1
  · exact visit_step_decrease g seen cur (List.get?_eq_some.mp hget).1

/-- `Grid::into_iter` collected to a list: the region reconstructor. -/
def into_iter (g : Grid (Option Nat)) : List (GridContent Nat) :=
  g.visit_from [] 0

/-- A structurally recursive evaluator for the visitor, used to compute
concrete runs; it agrees with `visit_from` whenever the fuel dominates the
termination measure (`visit_fuel_eq`). -/
def visit_fuel (g : Grid (Option Nat)) : Nat → List Nat → Nat → List (GridContent Nat)
  | 0, _, _ => []
  | fuel + 1, seen, cur =>
    if cur ∈ seen then g.visit_fuel fuel seen (cur + 1)
    else
      match g.contents.get? cur with
      | none => []
      | some (some val) =>
          { data := val,
            size := { width := 1 + (g.touching (g.to_dimension cur)).x - (g.to_dimension cur).x,
                      height := 1 + (g.touching (g.to_dimension cur)).y - (g.to_dimension cur).y },
            origin := g.to_dimension cur } ::
            g.visit_fuel fuel
              (seen ++ (Coord.iter_area (g.to_dimension cur)
                (g.touching (g.to_dimension cur))).map g.to_index)
              (cur + (1 + (g.touching (g.to_dimension cur)).x - (g.to_dimension cur).x))
      | some none =>
          g.visit_fuel fuel
            (seen ++ (Coord.iter_area (g.to_dimension cur)
              (g.touching (g.to_dimension cur))).map g.to_index)
            (cur + (1 + (g.touching (g.to_dimension cur)).x - (g.to_dimension cur).x))

/-- The facts established by `touching`'s two probes for a region with
top-left `o`, value `v`, right extent `xe` and bottom extent `ye`: the
extents are ordered, the right extent is inside the grid width, and every
cell on the probed row segment and column segment holds the value `v`. -/
def probes (g : Grid (Option Nat)) (v : Option Nat) (o : Coord) (xe ye : Nat) : Prop :=
  o.x ≤ xe ∧ xe < g.width ∧ o.y ≤ ye ∧
  (∀ x, o.x ≤ x → x ≤ xe →
    g.contents.get? (g.to_index { x := x, y := o.y }) = some v) ∧
  (∀ y, o.y ≤ y → y ≤ ye →
    g.contents.get? (g.to_index { x := o.x, y := y }) = some v)

lemma takeWhile_range'_map_last {α : Type} (f : Nat → α) (p : α → Bool) :
    ∀ (n a : Nat) (b : α),
      (((List.range' a n).map f).takeWhile p).getLast? = some b →
      ∃ m, m < n ∧ b = f (a + m) ∧ ∀ i, i ≤ m → p (f (a + i)) = true := by
  intro n
  induction n with
  | zero =>
    intro a b h
    simp at h
  | succ n ih =>
    intro a b h
    rw [List.range'_succ, List.map_cons] at h
    by_cases hp : p (f a)
    · rw [List.takeWhile_cons_of_pos hp, List.getLast?_cons] at h
      cases hlast : (((List.range' (a + 1) n).map f).takeWhile p).getLast? with
      | none =>
        rw [hlast] at h
        simp only [Option.getD_none, Option.some.injEq] at h
        refine ⟨0, Nat.succ_pos n, by simpa using h.symm, ?_⟩
        intro i hi
        have : i = 0 := Nat.le_zero.mp hi
        subst this
        simpa using hp
      | some b2 =>
        rw [hlast] at h
        simp only [Option.getD_some, Option.some.injEq] at h
        subst h
        obtain ⟨m, hm, hb2, hall⟩ := ih (a + 1) b2 hlast
        refine ⟨m + 1, by omega, by rw [hb2]; congr 1; omega, ?_⟩
        intro i hi
        cases i with
        | zero => simpa using hp
        | succ j =>
          have := hall j (by omega)
          have harith : a + 1 + j = a + (j + 1) := by omega
          rwa [harith] at this
    · rw [List.takeWhile_cons_of_neg hp] at h
      simp at h

lemma touching_probes (g : Grid (Option Nat)) (hW : 0 < g.width) (cur : Nat)
    (v : Option Nat) (hv : g.contents.get? cur = some v) :
    probes g v (g.to_dimension cur) (g.touching (g.to_dimension cur)).x
      (g.touching (g.to_dimension cur)).y := by
  have hti := g.to_index_to_dimension cur
  have hxlt : (g.to_dimension cur).x < g.width := g.to_dimension_x_lt cur hW
  unfold touching
  rw [hti, hv]
  simp only
  have hfirstrow : (g.contents.get? (g.to_index
      ({ x := (g.to_dimension cur).x, y := (g.to_dimension cur).y } : Coord)) == some v) = true := by
    have heta : ({ x := (g.to_dimension cur).x, y := (g.to_dimension cur).y } : Coord) =
        g.to_dimension cur := rfl
    rw [heta, hti, hv]
    simp
  cases hr : ((((List.range' (g.to_dimension cur).x (g.width - (g.to_dimension cur).x)).map
      (fun x => ({ x := x, y := (g.to_dimension cur).y } : Coord))).takeWhile
      (fun coord => g.contents.get? (g.to_index coord) == some v)).getLast?) with
  | none =>
    exfalso
    obtain ⟨k, hk⟩ : ∃ k, g.width - (g.to_dimension cur).x = k + 1 :=
      ⟨g.width - (g.to_dimension cur).x - 1, by omega⟩
    rw [hk, List.range'_succ, List.map_cons,
      List.takeWhile_cons_of_pos
        (p := fun coord => g.contents.get? (g.to_index coord) == some v) hfirstrow] at hr
    rw [List.getLast?_eq_none_iff] at hr
    cases hr
  | some cr =>
    cases hb : ((((List.range' (g.to_dimension cur).y (g.contents.length + 1)).map
        (fun y => ({ x := (g.to_dimension cur).x, y := y } : Coord))).takeWhile
        (fun coord => g.contents.get? (g.to_index coord) == some v)).getLast?) with
    | none =>
      exfalso
      rw [List.range'_succ, List.map_cons,
        List.takeWhile_cons_of_pos
          (p := fun coord => g.contents.get? (g.to_index coord) == some v) hfirstrow] at hb
      rw [List.getLast?_eq_none_iff] at hb
      cases hb
    | some cb =>
      simp only
      obtain ⟨m, hm, hcr, hallr⟩ := takeWhile_range'_map_last _ _ _ _ _ hr
      obtain ⟨m2, hm2, hcb, hallc⟩ := takeWhile_range'_map_last _ _ _ _ _ hb
      subst hcr
      subst hcb
      dsimp only
      refine ⟨Nat.le_add_right _ _, by omega, Nat.le_add_right _ _, ?_, ?_⟩
      · intro x hx1 hx2
        have := hallr (x - (g.to_dimension cur).x) (by omega)
        have harith : (g.to_dimension cur).x + (x - (g.to_dimension cur).x) = x := by omega
        rw [harith] at this
        exact eq_of_beq this
      · intro y hy1 hy2
        have := hallc (y - (g.to_dimension cur).y) (by omega)
        have harith : (g.to_dimension cur).y + (y - (g.to_dimension cur).y) = y := by omega
        rw [harith] at this
        exact eq_of_beq this

lemma visit_from_of_seen (g : Grid (Option Nat)) {seen : List Nat} {cur : Nat}
    (h : cur ∈ seen) : g.visit_from seen cur = g.visit_from seen (cur + 1) := by
  rw [Grid.visit_from]
  simp [h]

lemma visit_from_of_none (g : Grid (Option Nat)) {seen : List Nat} {cur : Nat}
    (h : cur ∉ seen) (hg : g.contents.get? cur = none) :
    g.visit_from seen cur = [] := by
  rw [Grid.visit_from]
  simp only [h, dite_false]
  split
  · rfl
  · rename_i val heq
    rw [hg] at heq
    exact Option.noConfusion heq
  · rename_i heq
    rw [hg] at heq
    exact Option.noConfusion heq

lemma visit_from_of_skip (g : Grid (Option Nat)) {seen : List Nat} {cur : Nat}
    (h : cur ∉ seen) (hg : g.contents.get? cur = some none) :
    g.visit_from seen cur =
      g.visit_from
        (seen ++ (Coord.iter_area (g.to_dimension cur)
          (g.touching (g.to_dimension cur))).map g.to_index)
        (cur + (1 + (g.touching (g.to_dimension cur)).x - (g.to_dimension cur).x)) := by
  rw [Grid.visit_from]
  simp only [h, dite_false]
  split
  · rename_i heq
    rw [hg] at heq
    exact Option.noConfusion heq
  · rename_i val heq
    rw [hg] at heq
    exact Option.noConfusion (Option.some.inj heq)
  · rfl

lemma visit_from_of_emit (g : Grid (Option Nat)) {seen : List Nat} {cur val : Nat}
    (h : cur ∉ seen) (hg : g.contents.get? cur = some (some val)) :
    g.visit_from seen cur =
      { data := val,
        size := { width := 1 + (g.touching (g.to_dimension cur)).x - (g.to_dimension cur).x,
                  height := 1 + (g.touching (g.to_dimension cur)).y - (g.to_dimension cur).y },
        origin := g.to_dimension cur } ::
        g.visit_from
          (seen ++ (Coord.iter_area (g.to_dimension cur)
            (g.touching (g.to_dimension cur))).map g.to_index)
          (cur + (1 + (g.touching (g.to_dimension cur)).x - (g.to_dimension cur).x)) := by
  rw [Grid.visit_from]
  simp only [h, dite_false]
  split
  · rename_i heq
    rw [hg] at heq
    exact Option.noConfusion heq
  · rename_i val2 heq
    rw [hg] at heq
    have hval : val = val2 := Option.some.inj (Option.some.inj heq)
    subst hval
    rfl
  · rename_i heq
    rw [hg] at heq
    exact Option.noConfusion (Option.some.inj heq)

lemma visit_fuel_eq (g : Grid (Option Nat)) :
    ∀ (fuel : Nat) (seen : List Nat) (cur : Nat),
      seenBound g seen - cur ≤ fuel →
      g.visit_fuel fuel seen cur = g.visit_from seen cur := by
  intro fuel
  induction fuel with
  | zero =>
    intro seen cur hle
    have hU := seenBound_base g seen
    have hcur : g.contents.length < cur := by omega
    have hseen : cur ∉ seen := by
      intro hmem
      have := seenBound_mem g hmem
      omega
    rw [visit_from_of_none g hseen (List.get?_eq_none.mpr (by omega))]
    rfl
  | succ fuel ih =>
    intro seen cur hle
    show (if cur ∈ seen then g.visit_fuel fuel seen (cur + 1) else _) = _
    by_cases hseen : cur ∈ seen
    · rw [if_pos hseen, visit_from_of_seen g hseen]
      apply ih
      have := seenBound_mem g hseen
      omega
    · rw [if_neg hseen]
      cases hget : g.contents.get? cur with
      | none =>
        rw [visit_from_of_none g hseen hget]
      | some this =>
        have hcur : cur < g.contents.length := (List.get?_eq_some.mp hget).1
        have hdec := visit_step_decrease g seen cur hcur
        cases this with
        | none =>
          rw [visit_from_of_skip g hseen hget]
          exact ih _ _ (by omega)
        | some val =>
          rw [visit_from_of_emit g hseen hget]
          rw [ih _ _ (by omega)]

/-- `into_iter` computed with the structural evaluator. -/
lemma into_iter_eq_fuel (g : Grid (Option Nat)) :
    g.into_iter = g.visit_fuel (g.contents.length + 1) [] 0 := by
  unfold Grid.into_iter
  rw [visit_fuel_eq g (g.contents.length + 1) [] 0 (by unfold seenBound; simp)]

/-- The bottom-right corner of the span of an emitted placement. -/
def span_last (e : GridContent Nat) : Coord :=
  { x := e.origin.x + e.size.width - 1, y := e.origin.y + e.size.height - 1 }

/-- Facts about a single emitted placement of the visitor started in state
`(seen, cur)`: the probe facts hold for its payload value, its span is
nonempty, and its origin is an unseen cell at or after the cursor. -/
def emitted_ok (g : Grid (Option Nat)) (seen : List Nat) (cur : Nat)
    (e : GridContent Nat) : Prop :=
  probes g (some e.data) e.origin (e.origin.x + e.size.width - 1)
      (e.origin.y + e.size.height - 1) ∧
  1 ≤ e.size.width ∧ 1 ≤ e.size.height ∧
  g.to_index e.origin ∉ seen ∧ cur ≤ g.to_index e.origin

/-- The relation between an earlier and a later emission: origins in strict
row-major order, and the later origin not covered by the earlier span. -/
def visit_rel (g : Grid (Option Nat)) (a b : GridContent Nat) : Prop :=
  g.to_index a.origin < g.to_index b.origin ∧
  g.to_index b.origin ∉ (Coord.iter_area a.origin (span_last a)).map g.to_index

lemma emitted_ok_weaken {g : Grid (Option Nat)} {seen seen2 : List Nat}
    {cur cur2 : Nat} {e : GridContent Nat} (h : emitted_ok g seen2 cur2 e)
    (hsub : ∀ s, s ∈ seen → s ∈ seen2) (hle : cur ≤ cur2) :
    emitted_ok g seen cur e := by
  obtain ⟨h1, h2, h3, h4, h5⟩ := h
  exact ⟨h1, h2, h3, fun hc => h4 (hsub _ hc), le_trans hle h5⟩

/-- Every placement emitted by the visitor satisfies `emitted_ok`, and the
emissions are pairwise related by `visit_rel`. -/
theorem visit_from_facts (g : Grid (Option Nat)) (hW : 0 < g.width)
    (seen : List Nat) (cur : Nat) :
    (∀ e ∈ g.visit_from seen cur, emitted_ok g seen cur e) ∧
    (g.visit_from seen cur).Pairwise (visit_rel g) := by
  by_cases hseen : cur ∈ seen
  · rw [visit_from_of_seen g hseen]
    obtain ⟨h1, h2⟩ := visit_from_facts g hW seen (cur + 1)
    exact ⟨fun e he => emitted_ok_weaken (h1 e he) (fun s hs => hs) (Nat.le_succ _), h2⟩
  · cases hget : g.contents.get? cur with
    | none =>
      rw [visit_from_of_none g hseen hget]
      simp
    | some this =>
      cases this with
      | none =>
        rw [visit_from_of_skip g hseen hget]
        obtain ⟨h1, h2⟩ := visit_from_facts g hW
          (seen ++ (Coord.iter_area (g.to_dimension cur)
            (g.touching (g.to_dimension cur))).map g.to_index)
          (cur + (1 + (g.touching (g.to_dimension cur)).x - (g.to_dimension cur).x))
        refine ⟨fun e he => emitted_ok_weaken (h1 e he)
          (fun s hs => List.mem_append_left _ hs) (Nat.le_add_right _ _), h2⟩
      | some val =>
        rw [visit_from_of_emit g hseen hget]
        obtain ⟨h1, h2⟩ := visit_from_facts g hW
          (seen ++ (Coord.iter_area (g.to_dimension cur)
            (g.touching (g.to_dimension cur))).map g.to_index)
          (cur + (1 + (g.touching (g.to_dimension cur)).x - (g.to_dimension cur).x))
        have hprobe := touching_probes g hW cur (some val) hget
        have hx := g.touching_x_ge (g.to_dimension cur)
        have hy := g.touching_y_ge (g.to_dimension cur)
        have hti := g.to_index_to_dimension cur
        have hxe : (g.to_dimension cur).x +
            (1 + (g.touching (g.to_dimension cur)).x - (g.to_dimension cur).x) - 1 =
            (g.touching (g.to_dimension cur)).x := by omega
        have hye : (g.to_dimension cur).y +
            (1 + (g.touching (g.to_dimension cur)).y - (g.to_dimension cur).y) - 1 =
            (g.touching (g.to_dimension cur)).y := by omega
        constructor
        · intro e he
          rcases List.mem_cons.mp he with rfl | he2
          · refine ⟨?_, by dsimp only; omega, by dsimp only; omega, ?_, ?_⟩
            · dsimp only
              rw [hxe, hye]
              exact hprobe
            · dsimp only
              rw [hti]
              exact hseen
            · dsimp only
              rw [hti]
          · exact emitted_ok_weaken (h1 e he2)
              (fun s hs => List.mem_append_left _ hs)
              (Nat.le_add_right _ _)
        · rw [List.pairwise_cons]
          refine ⟨?_, h2⟩
          intro b hb
          obtain ⟨_, _, _, hb4, hb5⟩ := h1 b hb
          constructor
          · dsimp only
            rw [hti]
            omega
          · dsimp only
            have hspan : span_last
                { data := val,
                  size := { width := 1 + (g.touching (g.to_dimension cur)).x - (g.to_dimension cur).x,
                            height := 1 + (g.touching (g.to_dimension cur)).y - (g.to_dimension cur).y },
                  origin := g.to_dimension cur } = g.touching (g.to_dimension cur) := by
              unfold span_last
              dsimp only
              cases hbr : g.touching (g.to_dimension cur)
              rw [hbr] at hx hy
              dsimp only at hx hy
              simp only [Coord.mk.injEq]
              constructor <;> omega
            rw [hspan]
            intro hmem
            exact hb4 (List.mem_append_right _ hmem)
termination_by seenBound g seen - cur
decreasing_by
  · have h2 := seenBound_mem g hseen
    omega
  · exact visit_step_decrease g seen cur (List.get?_eq_some.mp hget).1
  · exact visit_step_decrease g seen cur (List.get?_eq_some.mp hget).1

lemma extend_to_width {T : Type} (g : Grid (Option T)) (idx : Nat) :
    (g.extend_to idx).width = g.width := rfl

lemma insert_at_width {T σ : Type} [Size σ] {g g2 : Grid (Option T)} {index : Nat}
    {id : T} {d : σ} (h : g.insert_at index id d = some g2) :
    g2.width = g.width := by
  unfold insert_at at h
  cases hl : (g.dimensions_iter d index).getLast? with
  | none =>
    rw [hl] at h
    exact Option.noConfusion h
  | some last =>
    rw [hl] at h
    have h2 := Option.some.inj h
    rw [← h2]
    rfl

lemma add_step_width {σ : Type} [Size σ] {g g2 : Grid (Option Nat)} {idx : Nat}
    {el : σ} (h : g.add_step idx el = some g2) : g2.width = g.width := by
  unfold add_step at h
  cases hf : g.available.find? (fun e => g.does_fit_at e el) with
  | some a =>
    rw [hf] at h
    replace h : g.insert_at a idx el = some g2 := h
    exact insert_at_width h
  | none =>
    rw [hf] at h
    replace h : (g.extend_to g.contents.length).insert_at g.contents.length idx el =
      some g2 := h
    exact (insert_at_width h).trans (extend_to_width g _)

lemma add_all_width {σ : Type} [Size σ] :
    ∀ (l : List (Nat × σ)) (g g2 : Grid (Option Nat)),
      l.foldlM (fun g p => g.add_step p.1 p.2) g = some g2 → g2.width = g.width := by
  intro l
  induction l with
  | nil =>
    intro g g2 h
    rw [Option.some.inj h]
  | cons p rest ih =>
    intro g g2 h
    rw [List.foldlM_cons] at h
    cases hstep : g.add_step p.1 p.2 with
    | none =>
      rw [hstep] at h
      exact Option.noConfusion h
    | some g1 =>
      rw [hstep] at h
      replace h : rest.foldlM (fun g p => g.add_step p.1 p.2) g1 = some g2 := h
      rw [ih g1 g2 h, add_step_width hstep]

lemma filterMap_isNone_eq {T : Type} :
    ∀ (l : List (Nat × Option T)),
      l.filterMap (fun e => match e.2.isNone with
        | true => some e.1
        | false => none) = (l.filter (fun e => e.2.isNone)).map Prod.fst := by
  intro l
  induction l with
  | nil => rfl
  | cons a rest ih =>
    cases ha : a.2.isNone with
    | true =>
      rw [List.filterMap_cons, List.filter_cons]
      simp only [ha, ih]
      rfl
    | false =>
      rw [List.filterMap_cons, List.filter_cons]
      simp only [ha, ih]
      rfl

lemma mem_available {T : Type} (g : Grid (Option T)) (i : Nat) :
    i ∈ g.available ↔ g.contents.get? i = some none := by
  unfold available
  rw [List.mem_filterMap]
  constructor
  · rintro ⟨e, hmem, heq⟩
    cases he : e.2.isNone with
    | false =>
      rw [he] at heq
      exact Option.noConfusion heq
    | true =>
      rw [he] at heq
      have h2 := List.mem_enum_iff_get?.mp hmem
      rw [Option.some.inj heq] at h2
      rw [Option.isNone_iff_eq_none.mp he] at h2
      exact h2
  · intro h
    refine ⟨(i, none), ?_, rfl⟩
    exact List.mem_enum_iff_get?.mpr h

lemma available_sorted {T : Type} (g : Grid (Option T)) :
    g.available.Pairwise (· < ·) := by
  unfold available
  rw [filterMap_isNone_eq]
  rw [List.pairwise_map]
  have h1 : List.Pairwise (fun a b : Nat × Option T => a.1 < b.1) g.contents.enum := by
    rw [← List.pairwise_map (f := Prod.fst), List.enum_map_fst]
    exact List.pairwise_lt_range _
  exact h1.filter _

lemma find?_sorted_some {p : Nat → Bool} :
    ∀ {l : List Nat}, l.Pairwise (· < ·) → ∀ {i : Nat}, l.find? p = some i →
      i ∈ l ∧ p i = true ∧ ∀ j ∈ l, j < i → p j = false := by
  intro l
  induction l with
  | nil =>
    intro _ i h
    exact Option.noConfusion h
  | cons a rest ih =>
    intro hpw i h
    rw [List.pairwise_cons] at hpw
    rw [List.find?_cons] at h
    cases hp : p a with
    | true =>
      rw [hp] at h
      have : a = i := Option.some.inj h
      subst this
      refine ⟨List.mem_cons_self _ _, hp, ?_⟩
      intro j hj hji
      rcases List.mem_cons.mp hj with rfl | hj2
      · omega
      · exact absurd (hpw.1 j hj2) (by omega)
    | false =>
      rw [hp] at h
      obtain ⟨h1, h2, h3⟩ := ih hpw.2 h
      refine ⟨List.mem_cons_of_mem _ h1, h2, ?_⟩
      intro j hj hji
      rcases List.mem_cons.mp hj with rfl | hj2
      · exact hp
      · exact h3 j hj2 hji

lemma find?_sorted_eq_some {p : Nat → Bool} :
    ∀ {l : List Nat}, l.Pairwise (· < ·) → ∀ {i : Nat}, i ∈ l → p i = true →
      (∀ j ∈ l, j < i → p j = false) → l.find? p = some i := by
  intro l
  induction l with
  | nil =>
    intro _ i h
    cases h
  | cons a rest ih =>
    intro hpw i hmem hp hleast
    rw [List.pairwise_cons] at hpw
    rw [List.find?_cons]
    rcases List.mem_cons.mp hmem with rfl | hmem2
    · rw [hp]
    · have hai : a < i := hpw.1 i hmem2
      have hpa : p a = false := hleast a (List.mem_cons_self _ _) hai
      rw [hpa]
      exact ih hpw.2 hmem2 hp (fun j hj hji => hleast j (List.mem_cons_of_mem _ hj) hji)

/-- An occupied origin cell never fits an item with positive extents. -/
lemma occupied_not_fit {T σ : Type} [Size σ] (g : Grid (Option T)) (i : Nat)
    {v : T} (hocc : g.contents.get? i = some (some v)) (d : σ)
    (hw : 1 ≤ Size.width d) (hh : 1 ≤ Size.height d) :
    g.does_fit_at i d = false := by
  unfold does_fit_at
  by_cases hover : (g.to_dimension i).x + Size.width d > g.width
  · rw [if_pos hover]
  · rw [if_neg hover]
    rw [List.all_eq_false]
    refine ⟨i, ?_, ?_⟩
    · unfold dimensions_iter
      rw [List.mem_flatMap]
      refine ⟨0, by rw [List.mem_range]; omega, ?_⟩
      rw [List.mem_map]
      refine ⟨0, by rw [List.mem_range]; omega, ?_⟩
      unfold Grid.to_index
      simp
    · rw [hocc]
      simp

lemma to_index_lex {T : Type} (g : Grid T) {o1 o2 : Coord}
    (h2x : o2.x < g.width) (h : g.to_index o1 < g.to_index o2) :
    o1.y < o2.y ∨ (o1.y = o2.y ∧ o1.x < o2.x) := by
  unfold Grid.to_index at h
  rcases lt_trichotomy o1.y o2.y with hy | hy | hy
  · exact Or.inl hy
  · right
    rw [hy] at h
    exact ⟨hy, by omega⟩
  · exfalso
    have hmul : (o2.y + 1) * g.width ≤ o1.y * g.width :=
      Nat.mul_le_mul_right _ (by omega)
    have hexp : (o2.y + 1) * g.width = o2.y * g.width + g.width := by ring
    omega

/-- Two probed spans with distinct values, whose origins are in strict
row-major order with the later origin outside the earlier span, cover no
common cell. -/
lemma probes_disjoint (g : Grid (Option Nat)) {v1 v2 : Option Nat}
    {o1 o2 : Coord} {xe1 ye1 xe2 ye2 : Nat}
    (h1 : probes g v1 o1 xe1 ye1) (h2 : probes g v2 o2 xe2 ye2)
    (hv : v1 ≠ v2) (hord : g.to_index o1 < g.to_index o2)
    (hnot : ¬ (o1.x ≤ o2.x ∧ o2.x ≤ xe1 ∧ o1.y ≤ o2.y ∧ o2.y ≤ ye1)) :
    ∀ x y, o1.x ≤ x → x ≤ xe1 → o1.y ≤ y → y ≤ ye1 →
      o2.x ≤ x → x ≤ xe2 → o2.y ≤ y → y ≤ ye2 → False := by
  obtain ⟨h1x, h1w, h1y, h1row, h1col⟩ := h1
  obtain ⟨h2x, h2w, h2y, h2row, h2col⟩ := h2
  intro x y hx1 hx2 hy1 hy2 hx3 hx4 hy3 hy4
  rcases g.to_index_lex (lt_of_le_of_lt h2x h2w) hord with hlt | ⟨heq, hxlt⟩
  · -- o1.y < o2.y
    have ho2y : o2.y ≤ ye1 := le_trans hy3 hy2
    by_cases hox : o1.x ≤ o2.x
    · have : o2.x > xe1 := by
        by_contra hle
        exact hnot ⟨hox, by omega, by omega, ho2y⟩
      omega
    · -- o2.x < o1.x: probe the shared cell ⟨o1.x, o2.y⟩ from both spans
      push_neg at hox
      have hcell2 := h2row o1.x (by omega) (by omega)
      have hcell1 := h1col o2.y (by omega) ho2y
      rw [hcell1] at hcell2
      exact hv (Option.some.inj hcell2)
  · -- same row, o1.x < o2.x
    have : o2.x > xe1 := by
      by_contra hle
      exact hnot ⟨by omega, by omega, by omega, by omega⟩
    omega

end Grid

/-- `std::mem::take(nullable_vec.get_mut(idx).unwrap()).unwrap()` of
`new_with_mapper`: read slot `idx`, fail (panic, modelled by `none`) if the
slot is out of bounds or already emptied, and empty it. -/
def take_slot {T : Type} (v : List (Option T)) (idx : Nat) :
    Option (T × List (Option T)) :=
  match v.get? idx with
  | some (some x) => some (x, v.set idx none)
  | _ => none

/-- `PhotoGrid` from `photogrid/src/lib.rs`. -/
structure PhotoGrid (T : Type) where
  grid : List (GridContent T)
  width : Nat
deriving DecidableEq, Repr

/-- One step of the substitution loop of `new_with_mapper`: take the item at
slot `c.data` out of the nullable vector and append the mapped placement. -/
def subst_step {T : Type} (st : List (GridContent T) × List (Option T))
    (c : GridContent Nat) : Option (List (GridContent T) × List (Option T)) := do
  let (x, v2) ← take_slot st.2 c.data
  pure (st.1 ++ [c.map (fun _ => x)], v2)

/-- `PhotoGrid::new_with_mapper` (`photogrid/src/lib.rs` lines 33-55, same
code in `grid/src/lib.rs` lines 364-386): pack the mapped sizes, reconstruct
the placements, and move each original item into its placement. -/
def PhotoGrid.new_with_mapper {T σ : Type} [Size σ] (photos : List T)
    (width : Nat) (cb : T → σ) : Option (PhotoGrid T) := do
  let grid ← (Grid.new (Option Nat) width).add_all (photos.map cb)
  let nullable_vec : List (Option T) := photos.map (fun x => some x)
  let st ← grid.into_iter.foldlM subst_step ([], nullable_vec)
  pure { grid := st.1, width := width }

/-- The filter predicate of `grow_non_intersecting` applied to the
enumerated entry `ti`: true iff no other entry with strictly greater
`origin.x` has a vertical extent intersecting `ti`'s. -/
def PhotoGrid.should_grow {T : Type} (p : PhotoGrid T) (ti : Nat × GridContent T) : Bool :=
  !((p.grid.enum.filter (fun oj => oj.2.origin.x > ti.2.origin.x)).any
    (fun oj => decide (oj.1 ≠ ti.1) &&
      does_intersect oj.2.height_range ti.2.height_range))

/-- `PhotoGrid::grow_non_intersecting` (`photogrid/src/lib.rs` lines 57-84):
a placement grows iff no other placement with a strictly greater `origin.x`
has an overlapping vertical extent; growing sets its width to
`grid width - origin.x`. -/
def PhotoGrid.grow_non_intersecting {T : Type} (p : PhotoGrid T) : PhotoGrid T :=
  let to_grow : List Nat := (p.grid.enum.filter p.should_grow).map (fun ti => ti.1)
  let grid2 := to_grow.foldl
    (fun grid idx =>
      match grid.get? idx with
      | some item =>
          grid.set idx { item with size := { item.size with width := p.width - item.origin.x } }
      | none => grid)
    p.grid
  { grid := grid2, width := p.width }

lemma subst_step_eq_some {T : Type} {st st2 : List (GridContent T) × List (Option T)}
    {c : GridContent Nat} (h : subst_step st c = some st2) :
    ∃ x, st.2.get? c.data = some (some x) ∧
      st2 = (st.1 ++ [c.map (fun _ => x)], st.2.set c.data none) := by
  unfold subst_step take_slot at h
  cases hv : st.2.get? c.data with
  | none =>
    rw [hv] at h
    exact Option.noConfusion h
  | some o =>
    cases o with
    | none =>
      rw [hv] at h
      exact Option.noConfusion h
    | some x =>
      rw [hv] at h
      have h2 : some (st.1 ++ [c.map (fun _ => x)], st.2.set c.data none) = some st2 := h
      exact ⟨x, rfl, (Option.some.inj h2).symm⟩

/-- Once a slot has been emptied it stays empty, so a successful
substitution loop never names it again. -/
lemma foldlM_subst_avoid {T : Type} :
    ∀ (cs : List (GridContent Nat)) (acc : List (GridContent T))
      (vec : List (Option T)) (st : List (GridContent T) × List (Option T))
      (k : Nat), vec.get? k = some none →
      cs.foldlM subst_step (acc, vec) = some st →
      ∀ c ∈ cs, c.data ≠ k := by
  intro cs
  induction cs with
  | nil =>
    intro acc vec st k hk h c hc
    cases hc
  | cons c rest ih =>
    intro acc vec st k hk h d hd
    rw [List.foldlM_cons] at h
    cases hstep : subst_step (acc, vec) c with
    | none =>
      rw [hstep] at h
      exact Option.noConfusion h
    | some st1 =>
      rw [hstep] at h
      replace h : rest.foldlM subst_step st1 = some st := h
      obtain ⟨x, hget, rfl⟩ := subst_step_eq_some hstep
      have hck : c.data ≠ k := by
        intro hckeq
        rw [hckeq, hk] at hget
        exact Option.noConfusion (Option.some.inj hget)
      rcases List.mem_cons.mp hd with rfl | hd2
      · exact hck
      · refine ih _ _ _ k ?_ h d hd2
        rw [List.get?_set_ne _ _ hck]
        exact hk

/-- Specification of the substitution loop: on success the payload slots
are pairwise distinct and each output placement keeps its size and origin
while its data is the item the input vector held at the payload slot. -/
lemma foldlM_subst_spec {T : Type} :
    ∀ (cs : List (GridContent Nat)) (acc : List (GridContent T))
      (vec : List (Option T)) (st : List (GridContent T) × List (Option T)),
      cs.foldlM subst_step (acc, vec) = some st →
      (cs.map (fun c => c.data)).Nodup ∧
      ∃ out, st.1 = acc ++ out ∧ out.length = cs.length ∧
        (∀ i e, out.get? i = some e → ∃ c, cs.get? i = some c ∧
          e.size = c.size ∧ e.origin = c.origin ∧
          vec.get? c.data = some (some e.data)) := by
  intro cs
  induction cs with
  | nil =>
    intro acc vec st h
    have h2 : (acc, vec) = st := Option.some.inj h
    subst h2
    refine ⟨List.nodup_nil, [], by simp, rfl, ?_⟩
    intro i e he
    simp at he
  | cons c rest ih =>
    intro acc vec st h
    rw [List.foldlM_cons] at h
    cases hstep : subst_step (acc, vec) c with
    | none =>
      rw [hstep] at h
      exact Option.noConfusion h
    | some st1 =>
      rw [hstep] at h
      replace h : rest.foldlM subst_step st1 = some st := h
      obtain ⟨x, hget, rfl⟩ := subst_step_eq_some hstep
      obtain ⟨hnd, out, hout1, hout2, hout3⟩ := ih _ _ _ h
      have hlen : c.data < vec.length := (List.get?_eq_some.mp hget).1
      have hset : (vec.set c.data none).get? c.data = some none := by
        rw [List.get?_set_eq]
        rw [hget]
        rfl
      have havoid := foldlM_subst_avoid rest _ _ _ c.data hset h
      constructor
      · simp only [List.map_cons, List.nodup_cons]
        refine ⟨?_, hnd⟩
        intro hmem
        obtain ⟨d, hd, hdeq⟩ := List.mem_map.mp hmem
        exact havoid d hd hdeq
      · refine ⟨c.map (fun _ => x) :: out, ?_, by simp [hout2], ?_⟩
        · rw [hout1]
          simp
        · intro i e he
          cases i with
          | zero =>
            simp only [List.get?_cons_zero, Option.some.injEq] at he
            subst he
            exact ⟨c, rfl, rfl, rfl, hget⟩
          | succ j =>
            simp only [List.get?_cons_succ] at he
            obtain ⟨d, hd1, hd2, hd3, hd4⟩ := hout3 j e he
            refine ⟨d, hd1, hd2, hd3, ?_⟩
            have hdk : d.data ≠ c.data := by
              intro heq
              rw [heq, hset] at hd4
              exact Option.noConfusion (Option.some.inj hd4)
            rw [List.get?_set_ne _ _ (fun heq => hdk heq.symm)] at hd4
            exact hd4

/-- The cell `(x, y)` is covered by placement `c`. -/
def covers {T : Type} (c : GridContent T) (x y : Nat) : Prop :=
  c.origin.x ≤ x ∧ x < c.origin.x + c.size.width ∧
  c.origin.y ≤ y ∧ y < c.origin.y + c.size.height

/-- Placements `a` and `b` cover no common cell. -/
def cell_disjoint {T U : Type} (a : GridContent T) (b : GridContent U) : Prop :=
  ∀ x y, ¬ (covers a x y ∧ covers b x y)

/-- The reconstructor's output placements are pairwise cell-disjoint as
soon as their payloads are pairwise distinct. -/
lemma into_iter_cell_disjoint (g : Grid (Option Nat)) (hW : 0 < g.width)
    (hnd : (g.into_iter.map (fun c => c.data)).Nodup) :
    g.into_iter.Pairwise cell_disjoint := by
  obtain ⟨h1, h2⟩ := Grid.visit_from_facts g hW [] 0
  have hnd2 : (g.visit_from [] 0).Pairwise (fun a b => a.data ≠ b.data) :=
    List.pairwise_map.mp hnd
  unfold Grid.into_iter
  rw [List.pairwise_iff_get] at h2 hnd2 ⊢
  intro i j hij
  have hrel := h2 i j hij
  have hneq := hnd2 i j hij
  have hA := h1 _ (List.get_mem _ _ i.isLt)
  have hB := h1 _ (List.get_mem _ _ j.isLt)
  set a := (g.visit_from [] 0).get i with ha
  set b := (g.visit_from [] 0).get j with hb
  obtain ⟨pa, wa1, ha1, _, _⟩ := hA
  obtain ⟨pb, wb1, hb1, _, _⟩ := hB
  intro x y hxy
  obtain ⟨⟨hca1, hca2, hca3, hca4⟩, ⟨hcb1, hcb2, hcb3, hcb4⟩⟩ := hxy
  refine Grid.probes_disjoint g pa pb
    (fun hv => hneq (Option.some.inj hv)) hrel.1 ?_ x y
    hca1 (by omega) hca3 (by omega) hcb1 (by omega) hcb3 (by omega)
  intro ⟨hh1, hh2, hh3, hh4⟩
  apply hrel.2
  apply List.mem_map_of_mem
  rw [Coord.mem_iter_area (by unfold Grid.span_last; dsimp only; omega)
    (by unfold Grid.span_last; dsimp only; omega)]
  unfold Grid.span_last
  dsimp only
  exact ⟨hh1, hh2, hh3, hh4⟩

lemma range_some_get {N k : Nat} {v : Option Nat}
    (h : ((List.range N).map (fun x => some x)).get? k = some v) :
    v = some k ∧ k < N := by
  rw [List.get?_map] at h
  cases hr : (List.range N).get? k with
  | none =>
    rw [hr] at h
    exact Option.noConfusion h
  | some m =>
    rw [hr] at h
    have hk := List.get?_mem hr
    rw [List.mem_range] at hk
    have hm : m = k := by
      have := List.get?_range (by
        by_contra hge
        rw [List.get?_eq_none.mpr (by simpa [List.length_range] using hge)] at hr
        exact Option.noConfusion hr)
      rw [this] at hr
      exact (Option.some.inj hr).symm
    subst hm
    exact ⟨(Option.some.inj h).symm, hk⟩

/-- The width update `grow_non_intersecting` applies to a grown placement. -/
def grow_upd {T : Type} (W : Nat) (item : GridContent T) : GridContent T :=
  { item with size := { item.size with width := W - item.origin.x } }

lemma foldl_grow_step_get? {T : Type} (W : Nat) (l0 : List (GridContent T))
    (a i : Nat) :
    ((match l0.get? a with
      | some item =>
        l0.set a { item with size := { item.size with width := W - item.origin.x } }
      | none => l0).get? i) =
      if i = a then (l0.get? a).map (grow_upd W) else l0.get? i := by
  cases hg : l0.get? a with
  | none =>
    by_cases hia : i = a
    · subst hia
      rw [if_pos rfl, hg]
      rfl
    · rw [if_neg hia]
  | some item =>
    by_cases hia : i = a
    · subst hia
      rw [if_pos rfl, List.get?_set_eq, hg]
      rfl
    · rw [if_neg hia, List.get?_set_ne _ _ (fun heq => hia heq.symm)]

lemma foldl_grow_get? {T : Type} (W : Nat) :
    ∀ (idxs : List Nat) (l0 : List (GridContent T)), idxs.Nodup → ∀ i,
      ((idxs.foldl (fun grid idx =>
        match grid.get? idx with
        | some item =>
          grid.set idx { item with size := { item.size with width := W - item.origin.x } }
        | none => grid) l0).get? i) =
      if i ∈ idxs then (l0.get? i).map (grow_upd W) else l0.get? i := by
  intro idxs
  induction idxs with
  | nil =>
    intro l0 hnd i
    simp
  | cons a rest ih =>
    intro l0 hnd i
    rw [List.foldl_cons]
    rw [List.nodup_cons] at hnd
    rw [ih _ hnd.2 i]
    by_cases hir : i ∈ rest
    · have hia : i ≠ a := fun heq => hnd.1 (heq ▸ hir)
      rw [if_pos hir, if_pos (List.mem_cons_of_mem _ hir),
        foldl_grow_step_get? W l0 a i, if_neg hia]
    · rw [if_neg hir, foldl_grow_step_get? W l0 a i]
      by_cases hia : i = a
      · subst hia
        rw [if_pos rfl, if_pos (List.mem_cons_self _ _)]
      · rw [if_neg hia, if_neg (by
          intro hmem
          rcases List.mem_cons.mp hmem with heq | hmem2
          · exact hia heq
          · exact hir hmem2)]

lemma to_grow_nodup {T : Type} (p : PhotoGrid T) :
    ((p.grid.enum.filter p.should_grow).map (fun ti => ti.1)).Nodup := by
  have h1 : List.Pairwise (fun a b : Nat × GridContent T => a.1 < b.1) p.grid.enum := by
    rw [← List.pairwise_map (f := Prod.fst)]
    rw [List.enum_map_fst]
    exact List.pairwise_lt_range _
  have h2 := h1.filter p.should_grow
  have h3 : List.Pairwise (fun a b : Nat => a < b)
      ((p.grid.enum.filter p.should_grow).map (fun ti => ti.1)) := by
    rw [List.pairwise_map]
    exact h2
  exact h3.imp Nat.ne_of_lt

lemma mem_to_grow_iff {T : Type} (p : PhotoGrid T) (i : Nat) :
    (i ∈ (p.grid.enum.filter p.should_grow).map (fun ti => ti.1)) ↔
      ∃ item, p.grid.get? i = some item ∧ p.should_grow (i, item) = true := by
  rw [List.mem_map]
  constructor
  · rintro ⟨ti, hti, rfl⟩
    rw [List.mem_filter] at hti
    obtain ⟨hmem, hsg⟩ := hti
    obtain ⟨h1, h2⟩ := List.mem_enum hmem
    refine ⟨ti.2, ?_, ?_⟩
    · rw [h2]
      exact List.get?_eq_some.mpr ⟨h1, rfl⟩
    · convert hsg
  · rintro ⟨item, hget, hsg⟩
    refine ⟨(i, item), ?_, rfl⟩
    rw [List.mem_filter]
    refine ⟨?_, hsg⟩
    rw [List.mk_mem_enum_iff_get?]
    exact hget

/-- Pointwise characterisation of `grow_non_intersecting`: exactly the
entries passing `should_grow` get their width set to `width - origin.x`. -/
lemma grow_grid_get? {T : Type} (p : PhotoGrid T) (i : Nat) :
    p.grow_non_intersecting.grid.get? i =
      match p.grid.get? i with
      | some item =>
        some (if p.should_grow (i, item) = true then grow_upd p.width item else item)
      | none => none := by
  show ((((p.grid.enum.filter p.should_grow).map (fun ti => ti.1)).foldl
      (fun grid idx =>
        match grid.get? idx with
        | some item =>
          grid.set idx { item with size := { item.size with width := p.width - item.origin.x } }
        | none => grid) p.grid).get? i) = _
  rw [foldl_grow_get? p.width _ p.grid (to_grow_nodup p) i]
  cases hg : p.grid.get? i with
  | none =>
    rw [if_neg]
    · intro hmem
      obtain ⟨item, hget, _⟩ := (mem_to_grow_iff p i).mp hmem
      rw [hg] at hget
      exact Option.noConfusion hget
  | some item =>
    by_cases hsg : p.should_grow (i, item) = true
    · rw [if_pos ((mem_to_grow_iff p i).mpr ⟨item, hg, hsg⟩)]
      simp [hsg]
    · rw [if_neg]
      · simp [hsg]
      · intro hmem
        obtain ⟨item2, hget2, hsg2⟩ := (mem_to_grow_iff p i).mp hmem
        rw [hg] at hget2
        rw [← Option.some.inj hget2] at hsg2
        exact hsg hsg2

lemma grow_width {T : Type} (p : PhotoGrid T) :
    p.grow_non_intersecting.width = p.width := rfl

lemma foldl_grow_length {T : Type} (W : Nat) :
    ∀ (idxs : List Nat) (l0 : List (GridContent T)),
      (idxs.foldl (fun grid idx =>
        match grid.get? idx with
        | some item =>
          grid.set idx { item with size := { item.size with width := W - item.origin.x } }
        | none => grid) l0).length = l0.length := by
  intro idxs
  induction idxs with
  | nil => intro l0; rfl
  | cons a rest ih =>
    intro l0
    rw [List.foldl_cons, ih]
    cases hg : l0.get? a with
    | none => rfl
    | some item => exact List.length_set l0 a _

lemma grow_length {T : Type} (p : PhotoGrid T) :
    p.grow_non_intersecting.grid.length = p.grid.length := by
  show (List.foldl _ p.grid _).length = _
  rw [foldl_grow_length p.width _ p.grid]

lemma pairwise_of_get? {α : Type} {R : α → α → Prop} {l : List α}
    (h : ∀ i j a b, i < j → l.get? i = some a → l.get? j = some b → R a b) :
    l.Pairwise R := by
  rw [List.pairwise_iff_get]
  intro i j hij
  exact h i j _ _ hij (List.get?_eq_get i.isLt) (List.get?_eq_get j.isLt)

lemma pairwise_get? {α : Type} {R : α → α → Prop} {l : List α} (h : l.Pairwise R) :
    ∀ i j a b, i < j → l.get? i = some a → l.get? j = some b → R a b := by
  intro i j a b hij ha hb
  obtain ⟨hi, ha2⟩ := List.get?_eq_some.mp ha
  obtain ⟨hj, hb2⟩ := List.get?_eq_some.mp hb
  rw [← ha2, ← hb2]
  exact List.pairwise_iff_get.mp h ⟨i, hi⟩ ⟨j, hj⟩ hij

lemma does_intersect_iff (a b : Nat × Nat) :
    does_intersect a b = true ↔ a.1 < b.2 ∧ b.1 < a.2 := by
  unfold does_intersect
  simp

/-- Propositional reading of the filter predicate of `grow_non_intersecting`:
an entry grows iff no other entry with a strictly greater `origin.x` has a
vertical extent intersecting it. -/
lemma should_grow_iff {T : Type} (p : PhotoGrid T) (i : Nat) (item : GridContent T) :
    p.should_grow (i, item) = true ↔
      ∀ j other, p.grid.get? j = some other → j ≠ i →
        item.origin.x < other.origin.x →
        ¬ (other.origin.y < item.origin.y + item.size.height ∧
           item.origin.y < other.origin.y + other.size.height) := by
  unfold PhotoGrid.should_grow
  rw [Bool.not_eq_true', List.any_eq_false]
  constructor
  · intro h j other hget hne hgt hint
    have hmem : (j, other) ∈ p.grid.enum.filter
        (fun oj => decide (oj.2.origin.x > (i, item).2.origin.x)) := by
      rw [List.mem_filter]
      exact ⟨List.mem_enum_iff_get?.mpr hget, by simpa using hgt⟩
    have hp := h _ hmem
    apply hp
    have hd : does_intersect (j, other).2.height_range (i, item).2.height_range = true := by
      rw [does_intersect_iff]
      unfold GridContent.height_range
      dsimp only
      exact hint
    rw [hd]
    simpa using hne
  · intro h oj hmem
    rw [List.mem_filter] at hmem
    obtain ⟨henum, hgt⟩ := hmem
    have hget := List.mem_enum_iff_get?.mp henum
    by_cases hne : oj.1 = i
    · simp [hne]
    · have hni := h oj.1 oj.2 hget hne (by simpa using hgt)
      intro hpred
      rw [Bool.and_eq_true] at hpred
      have hd := (does_intersect_iff _ _).mp hpred.2
      unfold GridContent.height_range at hd
      dsimp only at hd
      exact hni hd

lemma grow_entry {T : Type} (p : PhotoGrid T) (i : Nat) (e : GridContent T)
    (h : p.grow_non_intersecting.grid.get? i = some e) :
    ∃ a, p.grid.get? i = some a ∧
      ((p.should_grow (i, a) = true ∧ e = grow_upd p.width a) ∨
       (p.should_grow (i, a) = false ∧ e = a)) := by
  rw [grow_grid_get?] at h
  cases hg : p.grid.get? i with
  | none =>
    rw [hg] at h
    exact Option.noConfusion h
  | some a =>
    rw [hg] at h
    replace h : some (if p.should_grow (i, a) = true then grow_upd p.width a else a) =
      some e := h
    refine ⟨a, rfl, ?_⟩
    by_cases hsg : p.should_grow (i, a) = true
    · left
      rw [if_pos hsg] at h
      exact ⟨hsg, (Option.some.inj h).symm⟩
    · right
      rw [if_neg hsg] at h
      exact ⟨Bool.eq_false_iff.mpr hsg, (Option.some.inj h).symm⟩

/-- `grow_non_intersecting` never introduces an overlap: if the input
placements (all with positive extents) are pairwise cell-disjoint, so is
the output. -/
lemma grow_preserves_disjoint {T : Type} (p : PhotoGrid T)
    (hpos : ∀ c ∈ p.grid, 1 ≤ c.size.width ∧ 1 ≤ c.size.height)
    (hdisj : p.grid.Pairwise cell_disjoint) :
    p.grow_non_intersecting.grid.Pairwise cell_disjoint := by
  apply pairwise_of_get?
  intro i j e1 e2 hij h1 h2
  obtain ⟨a, hga, hcA⟩ := grow_entry p i e1 h1
  obtain ⟨b, hgb, hcB⟩ := grow_entry p j e2 h2
  have hdab := pairwise_get? hdisj i j a b hij hga hgb
  obtain ⟨hwa, hha⟩ := hpos a (List.get?_mem hga)
  obtain ⟨hwb, hhb⟩ := hpos b (List.get?_mem hgb)
  -- origin and height are never changed by the grow update
  have horA : e1.origin = a.origin := by
    rcases hcA with ⟨_, rfl⟩ | ⟨_, rfl⟩ <;> rfl
  have hhA : e1.size.height = a.size.height := by
    rcases hcA with ⟨_, rfl⟩ | ⟨_, rfl⟩ <;> rfl
  have horB : e2.origin = b.origin := by
    rcases hcB with ⟨_, rfl⟩ | ⟨_, rfl⟩ <;> rfl
  have hhB : e2.size.height = b.size.height := by
    rcases hcB with ⟨_, rfl⟩ | ⟨_, rfl⟩ <;> rfl
  intro x y hxy
  obtain ⟨⟨hA1, hA2, hA3, hA4⟩, ⟨hB1, hB2, hB3, hB4⟩⟩ := hxy
  rw [horA] at hA1 hA2 hA3 hA4
  rw [hhA] at hA4
  rw [horB] at hB1 hB2 hB3 hB4
  rw [hhB] at hB4
  -- the original x-ranges are disjoint: a shared column would give a
  -- shared cell of the original placements
  have hxdisj : a.origin.x + a.size.width ≤ b.origin.x ∨
      b.origin.x + b.size.width ≤ a.origin.x := by
    by_contra hc
    push_neg at hc
    obtain ⟨hc1, hc2⟩ := hc
    exact hdab (max a.origin.x b.origin.x) y
      ⟨⟨by omega, by omega, by omega, by omega⟩, ⟨by omega, by omega, by omega, by omega⟩⟩
  rcases hxdisj with hcase | hcase
  · -- b lies strictly to the right of a and intersects it vertically,
    -- so a cannot have grown
    have hnsg : ¬ p.should_grow (i, a) = true := by
      intro hsg
      exact (should_grow_iff p i a).mp hsg j b hgb (by omega) (by omega)
        ⟨by omega, by omega⟩
    have hea : e1 = a := by
      rcases hcA with ⟨hsg, _⟩ | ⟨_, heq⟩
      · exact absurd hsg hnsg
      · exact heq
    rw [hea] at hA2
    omega
  · have hnsg : ¬ p.should_grow (j, b) = true := by
      intro hsg
      exact (should_grow_iff p j b).mp hsg i a hga (by omega) (by omega)
        ⟨by omega, by omega⟩
    have heb : e2 = b := by
      rcases hcB with ⟨hsg, _⟩ | ⟨_, heq⟩
      · exact absurd hsg hnsg
      · exact heq
    rw [heb] at hB2
    omega

/-- `new_with_mapper` with the reconstructor replaced by its structural
evaluator, for computing concrete instances. -/
def PhotoGrid.new_with_mapper_fuel {T σ : Type} [Size σ] (photos : List T)
    (width : Nat) (cb : T → σ) : Option (PhotoGrid T) := do
  let grid ← (Grid.new (Option Nat) width).add_all (photos.map cb)
  let st ← (grid.visit_fuel (grid.contents.length + 1) [] 0).foldlM subst_step
    ([], photos.map (fun x => some x))
  pure { grid := st.1, width := width }

lemma new_with_mapper_eval {T σ : Type} [Size σ] (photos : List T)
    (width : Nat) (cb : T → σ) :
    PhotoGrid.new_with_mapper photos width cb =
      PhotoGrid.new_with_mapper_fuel photos width cb := by
  unfold PhotoGrid.new_with_mapper PhotoGrid.new_with_mapper_fuel
  simp only [Grid.into_iter_eq_fuel]

lemma GridContent.eq_of_fields {T : Type} {a b : GridContent T} (h1 : a.data = b.data)
    (h2 : a.size = b.size) (h3 : a.origin = b.origin) : a = b := by
  cases a
  cases b
  dsimp only at h1 h2 h3
  rw [h1, h2, h3]

lemma new_with_mapper_parts {T σ : Type} [Size σ] {photos : List T} {W : Nat}
    {cb : T → σ} {pg : PhotoGrid T}
    (h : PhotoGrid.new_with_mapper photos W cb = some pg) :
    ∃ grid st, (Grid.new (Option Nat) W).add_all (photos.map cb) = some grid ∧
      grid.into_iter.foldlM subst_step ([], photos.map (fun x => some x)) = some st ∧
      pg = { grid := st.1, width := W } := by
  unfold PhotoGrid.new_with_mapper at h
  cases hadd : (Grid.new (Option Nat) W).add_all (photos.map cb) with
  | none =>
    rw [hadd] at h
    exact Option.noConfusion h
  | some grid =>
    rw [hadd] at h
    replace h : (do
      let st ← grid.into_iter.foldlM subst_step ([], photos.map (fun x => some x))
      pure ({ grid := st.1, width := W } : PhotoGrid T)) = some pg := h
    cases hfold : grid.into_iter.foldlM subst_step ([], photos.map (fun x => some x)) with
    | none =>
      rw [hfold] at h
      exact Option.noConfusion h
    | some st =>
      rw [hfold] at h
      replace h : some ({ grid := st.1, width := W } : PhotoGrid T) = some pg := h
      exact ⟨grid, st, rfl, hfold, (Option.some.inj h).symm⟩

/-- Every placement of a successful `new_with_mapper` has a positive span
that stays inside the grid width. -/
lemma new_with_mapper_fits {T σ : Type} [Size σ] {photos : List T} {W : Nat}
    {cb : T → σ} {pg : PhotoGrid T} (hW : 0 < W)
    (h : PhotoGrid.new_with_mapper photos W cb = some pg) :
    ∀ e ∈ pg.grid, e.origin.x + e.size.width ≤ W ∧
      1 ≤ e.size.width ∧ 1 ≤ e.size.height := by
  obtain ⟨grid, st, hadd, hfold, rfl⟩ := new_with_mapper_parts h
  have hw : grid.width = W := by
    unfold Grid.add_all at hadd
    rw [Grid.add_all_width _ _ _ hadd]
    rfl
  have hWg : 0 < grid.width := by rw [hw]; exact hW
  obtain ⟨hnd, out, hout1, hout2, hout3⟩ := foldlM_subst_spec _ _ _ _ hfold
  obtain ⟨h1, _⟩ := Grid.visit_from_facts grid hWg [] 0
  intro e he
  have he2 : e ∈ out := by
    have : st.1 = out := by rw [hout1]; rfl
    rw [← this]
    exact he
  obtain ⟨n, hn⟩ := List.mem_iff_get?.mp he2
  obtain ⟨c, hc, hsize, horig, _⟩ := hout3 n e hn
  have hcmem : c ∈ grid.into_iter := List.get?_mem hc
  obtain ⟨⟨hp1, hp2, hp3, _, _⟩, hcw, hch, _, _⟩ := h1 c hcmem
  rw [hsize, horig, ← hw]
  exact ⟨by omega, by omega, by omega⟩

/-- For identity payloads (`photos = List.range N`) the substituted grid is
exactly the reconstructed ordinal grid. -/
lemma new_with_mapper_ids_grid {σ : Type} [Size σ] {N W : Nat} {cb : Nat → σ}
    {pg : PhotoGrid Nat}
    (h : PhotoGrid.new_with_mapper (List.range N) W cb = some pg) :
    ∃ grid, (Grid.new (Option Nat) W).add_all ((List.range N).map cb) = some grid ∧
      grid.width = W ∧ pg.grid = grid.into_iter := by
  obtain ⟨grid, st, hadd, hfold, rfl⟩ := new_with_mapper_parts h
  have hw : grid.width = W := by
    unfold Grid.add_all at hadd
    rw [Grid.add_all_width _ _ _ hadd]
    rfl
  obtain ⟨hnd, out, hout1, hout2, hout3⟩ := foldlM_subst_spec _ _ _ _ hfold
  refine ⟨grid, hadd, hw, ?_⟩
  have hst : st.1 = out := by rw [hout1]; rfl
  show st.1 = grid.into_iter
  rw [hst]
  apply List.ext
  intro n
  cases hn : out.get? n with
  | none =>
    rw [List.get?_eq_none] at hn
    symm
    rw [List.get?_eq_none]
    omega
  | some e =>
    obtain ⟨c, hc, hsize, horig, hvec⟩ := hout3 n e hn
    obtain ⟨hveq, _⟩ := range_some_get hvec
    rw [hc]
    congr 1
    exact GridContent.eq_of_fields (Option.some.inj hveq) hsize horig

/-- The main facts about a successful identity packing: payloads are
pairwise distinct and below `N`, the placements are pairwise cell-disjoint,
and every span is positive and fits the width. -/
lemma new_with_mapper_ids_spec {σ : Type} [Size σ] {N W : Nat} {cb : Nat → σ}
    {pg : PhotoGrid Nat} (hW : 0 < W)
    (h : PhotoGrid.new_with_mapper (List.range N) W cb = some pg) :
    (pg.grid.map (fun c => c.data)).Nodup ∧
    (∀ c ∈ pg.grid, c.data < N) ∧
    pg.grid.Pairwise cell_disjoint := by
  obtain ⟨grid, st, hadd, hfold, hpg⟩ := new_with_mapper_parts h
  obtain ⟨grid2, hadd2, hw2, hgrid2⟩ := new_with_mapper_ids_grid h
  rw [hadd] at hadd2
  rw [← Option.some.inj hadd2] at hgrid2 hw2
  have hWg : 0 < grid.width := by rw [hw2]; exact hW
  obtain ⟨hnd, out, hout1, hout2, hout3⟩ := foldlM_subst_spec _ _ _ _ hfold
  refine ⟨by rw [hgrid2]; exact hnd, ?_, ?_⟩
  · intro c hc
    have hout : pg.grid = out := by rw [hpg]; show st.1 = out; rw [hout1]; rfl
    rw [hout] at hc
    obtain ⟨n, hn⟩ := List.mem_iff_get?.mp hc
    obtain ⟨c2, _, _, _, hvec⟩ := hout3 n c hn
    obtain ⟨hveq, hlt⟩ := range_some_get hvec
    rw [Option.some.inj hveq]
    exact hlt
  · rw [hgrid2]
    exact into_iter_cell_disjoint grid hWg hnd

/-- Adding one on a nonzero remainder is ceiling division. -/
lemma div_round_up (a d : Nat) (hd : 0 < d) :
    a / d + (if a % d > 0 then 1 else 0) = (a + d - 1) / d := by
  have hmod := Nat.div_add_mod a d
  by_cases hr : a % d > 0
  · rw [if_pos hr]
    have harith : a + d - 1 = d * (a / d + 1) + (a % d - 1) := by
      have hexp : d * (a / d + 1) = d * (a / d) + d := by ring
      have := Nat.mod_lt a hd
      omega
    rw [harith, Nat.mul_add_div hd]
    have : (a % d - 1) / d = 0 := Nat.div_eq_of_lt (by have := Nat.mod_lt a hd; omega)
    omega
  · rw [if_neg hr]
    have hr0 : a % d = 0 := by omega
    by_cases ha : a = 0
    · subst ha
      simp [Nat.div_eq_of_lt (by omega : d - 1 < d)]
    · have harith : a + d - 1 = d * (a / d) + (d - 1) := by omega
      rw [harith, Nat.mul_add_div hd]
      have : (d - 1) / d = 0 := Nat.div_eq_of_lt (by omega)
      omega

lemma orientation_from_aspect_ratio_iff (ratio : AspectRatio) :
    (Orientation.from_aspect_ratio ratio = .Portrait ↔ ratio.width ≤ ratio.height) ∧
    (Orientation.from_aspect_ratio ratio = .Landscape ↔ ratio.height < ratio.width) := by
  unfold Orientation.from_aspect_ratio
  rcases lt_trichotomy ratio.width ratio.height with h | h | h
  · rw [Nat.compare_eq_lt.mpr h]
    refine ⟨by simp; omega, by simp; omega⟩
  · rw [Nat.compare_eq_eq.mpr h]
    refine ⟨by simp; omega, by simp; omega⟩
  · rw [Nat.compare_eq_gt.mpr h]
    refine ⟨by simp; omega, by simp; omega⟩

lemma size_orientation_iff {σ : Type} [Size σ] (s : σ) :
    (Size.orientation s = .Landscape ↔ Size.height s ≤ Size.width s) ∧
    (Size.orientation s = .Portrait ↔ Size.width s < Size.height s) := by
  unfold Size.orientation
  rcases lt_trichotomy (Size.width s) (Size.height s) with h | h | h
  · rw [Nat.compare_eq_lt.mpr h]
    refine ⟨by simp; omega, by simp; omega⟩
  · rw [Nat.compare_eq_eq.mpr h]
    refine ⟨by simp; omega, by simp; omega⟩
  · rw [Nat.compare_eq_gt.mpr h]
    refine ⟨by simp; omega, by simp; omega⟩

/-- Pointwise reading of a successful `Option`-monadic `mapM`. -/
lemma mapM_option_spec {α β : Type} (f : α → Option β) :
    ∀ (l : List α) (out : List β), l.mapM f = some out →
      out.length = l.length ∧
      ∀ i b, out.get? i = some b → ∃ a, l.get? i = some a ∧ f a = some b := by
  intro l
  induction l with
  | nil =>
    intro out h
    have h2 : ([] : List β) = out := Option.some.inj h
    subst h2
    exact ⟨rfl, fun i b hb => Option.noConfusion hb⟩
  | cons a rest ih =>
    intro out h
    rw [List.mapM_cons] at h
    cases hf : f a with
    | none =>
      rw [hf] at h
      exact Option.noConfusion h
    | some b =>
      rw [hf] at h
      cases hrest : rest.mapM f with
      | none =>
        rw [hrest] at h
        exact Option.noConfusion h
      | some out2 =>
        rw [hrest] at h
        replace h : some (b :: out2) = some out := h
        rw [← Option.some.inj h]
        obtain ⟨hlen, hpt⟩ := ih out2 hrest
        refine ⟨by simp [hlen], ?_⟩
        intro i e he
        cases i with
        | zero =>
          refine ⟨a, rfl, ?_⟩
          rw [List.get?_cons_zero] at he
          rw [hf, Option.some.inj he]
        | succ j =>
          rw [List.get?_cons_succ] at he
          obtain ⟨a2, ha2, hfa2⟩ := hpt j e he
          exact ⟨a2, ha2, hfa2⟩

/-- `ResponsivePhotoGrid` from `photogrid/src/lib.rs`. -/
structure ResponsivePhotoGrid (T : Type) where
  grids : List (PhotoGrid Nat)
  data : List T
deriving DecidableEq, Repr

/-- `ResponsivePhotoGrid::new` (`photogrid/src/lib.rs` lines 94-112).  The
source maps ordinal ids and sizes each id with
`cb(photos.get(*id).unwrap(), size)`; the ids are always in range, so the
model's fallback arm of the lookup is unreachable. -/
def ResponsivePhotoGrid.new {T σ : Type} [Size σ] (photos : List T)
    (sizes : List Nat) (cb : T → Nat → σ) (dflt : σ) :
    Option (ResponsivePhotoGrid T) := do
  let ids := List.range photos.length
  let grids ← sizes.mapM
    (fun size => PhotoGrid.new_with_mapper ids size
      (fun id => match photos.get? id with
        | some x => cb x size
        | none => dflt))
  pure { grids := grids, data := photos }

lemma responsive_new_eval {T σ : Type} [Size σ] (photos : List T) (sizes : List Nat)
    (cb : T → Nat → σ) (dflt : σ) :
    ResponsivePhotoGrid.new photos sizes cb dflt = (do
      let grids ← sizes.mapM
        (fun size => PhotoGrid.new_with_mapper_fuel (List.range photos.length) size
          (fun id => match photos.get? id with
            | some x => cb x size
            | none => dflt))
      pure ({ grids := grids, data := photos } : ResponsivePhotoGrid T)) := by
  unfold ResponsivePhotoGrid.new
  simp only [new_with_mapper_eval]

/-- `ResponsivePhotoGrid::contents_at` (`photogrid/src/lib.rs` lines
127-133): for each breakpoint grid having an entry at index `n` of its
placement list, pair the item the placement references with the placement;
the source's `unwrap` on the data lookup is modelled by `Option`. -/
def ResponsivePhotoGrid.contents_at {T : Type} (r : ResponsivePhotoGrid T)
    (n : Nat) : Option (List (T × GridContent Nat)) :=
  (r.grids.filterMap (fun grid => grid.grid.get? n)).mapM
    (fun c => (r.data.get? c.data).map (fun x => (x, c)))

/-- `ResponsivePhotoGrid::grow_to_width` (`photogrid/src/lib.rs` lines 142-149). -/
def ResponsivePhotoGrid.grow_to_width {T : Type} (r : ResponsivePhotoGrid T) :
    ResponsivePhotoGrid T :=
  { r with grids := r.grids.map (fun g => g.grow_non_intersecting) }

/-- A JSON-like document tree for the serialized form of the grids. -/
inductive Json where
  | num : Nat → Json
  | str : String → Json
  | arr : List Json → Json
  | obj : List (String × Json) → Json
deriving Repr

/-- Look a key up in an object document. -/
def Json.field (j : Json) (k : String) : Option Json :=
  match j with
  | .obj fields => fields.lookup k
  | _ => none

def json_nat (j : Json) : Option Nat :=
  match j with
  | .num n => some n
  | _ => none

/-- Modelled from the spec: the derived serde `Serialize` for `Dimension`
(the generated code is not under `src/`); field names as in the structured
document of §6 and the cached document in `photogrid/src/lib.rs`. -/
def Dimension.to_json (d : Dimension) : Json :=
  .obj [("width", .num d.width), ("height", .num d.height)]

/-- Modelled from the spec: the derived serde `Deserialize` for `Dimension`. -/
def Dimension.from_json (j : Json) : Option Dimension :=
  match j.field "width", j.field "height" with
  | some (.num w), some (.num h) => some { width := w, height := h }
  | _, _ => none

/-- Modelled from the spec: the derived serde `Serialize` for `Coord`. -/
def Coord.to_json (c : Coord) : Json :=
  .obj [("x", .num c.x), ("y", .num c.y)]

/-- Modelled from the spec: the derived serde `Deserialize` for `Coord`. -/
def Coord.from_json (j : Json) : Option Coord :=
  match j.field "x", j.field "y" with
  | some (.num x), some (.num y) => some { x := x, y := y }
  | _, _ => none

/-- Modelled from the spec: the derived serde `Serialize` for `GridContent`,
parameterized by the payload encoder. -/
def GridContent.to_json {T : Type} (encT : T → Json) (c : GridContent T) : Json :=
  .obj [("data", encT c.data), ("size", c.size.to_json), ("origin", c.origin.to_json)]

/-- Modelled from the spec: the derived serde `Deserialize` for `GridContent`. -/
def GridContent.from_json {T : Type} (decT : Json → Option T) (j : Json) :
    Option (GridContent T) :=
  match j.field "data", j.field "size", j.field "origin" with
  | some jd, some js, some jo =>
    (match decT jd, Dimension.from_json js, Coord.from_json jo with
    | some d, some s, some o => some { data := d, size := s, origin := o }
    | _, _, _ => none)
  | _, _, _ => none

/-- Modelled from the spec: the derived serde `Serialize` for `PhotoGrid<usize>`. -/
def PhotoGrid.to_json (p : PhotoGrid Nat) : Json :=
  .obj [("grid", .arr (p.grid.map (GridContent.to_json Json.num))), ("width", .num p.width)]

/-- Modelled from the spec: the derived serde `Deserialize` for `PhotoGrid<usize>`. -/
def PhotoGrid.from_json (j : Json) : Option (PhotoGrid Nat) :=
  match j.field "grid", j.field "width" with
  | some (.arr l), some (.num w) =>
    (match l.mapM (GridContent.from_json json_nat) with
    | some grid => some { grid := grid, width := w }
    | none => none)
  | _, _ => none

lemma dimension_from_to_json (d : Dimension) :
    Dimension.from_json d.to_json = some d := rfl

lemma coord_from_to_json (c : Coord) :
    Coord.from_json c.to_json = some c := rfl

lemma grid_content_from_to_json {T : Type} (encT : T → Json) (decT : Json → Option T)
    (hT : ∀ x, decT (encT x) = some x) (c : GridContent T) :
    GridContent.from_json decT (c.to_json encT) = some c := by
  show (match decT (encT c.data), Dimension.from_json c.size.to_json,
      Coord.from_json c.origin.to_json with
    | some d, some s, some o =>
      some ({ data := d, size := s, origin := o } : GridContent T)
    | _, _, _ => none) = some c
  rw [hT, dimension_from_to_json, coord_from_to_json]

lemma mapM_map_from_to {α : Type} (enc : α → Json) (dec : Json → Option α)
    (h : ∀ x, dec (enc x) = some x) :
    ∀ (l : List α), (l.map enc).mapM dec = some l := by
  intro l
  induction l with
  | nil => rfl
  | cons a rest ih =>
    rw [List.map_cons, List.mapM_cons, h a, ih]
    rfl

lemma photo_grid_from_to_json (p : PhotoGrid Nat) :
    PhotoGrid.from_json p.to_json = some p := by
  show (match (p.grid.map (GridContent.to_json Json.num)).mapM
      (GridContent.from_json json_nat) with
    | some grid => some ({ grid := grid, width := p.width } : PhotoGrid Nat)
    | none => none) = some p
  rw [mapM_map_from_to _ _ (grid_content_from_to_json Json.num json_nat (fun x => rfl))]

/-- Modelled from the spec: the derived serde `Serialize` for
`ResponsivePhotoGrid` (§6: all breakpoint placement lists plus the parallel
`data` array), parameterized by the item encoder. -/
def ResponsivePhotoGrid.to_json {T : Type} (encT : T → Json)
    (r : ResponsivePhotoGrid T) : Json :=
  .obj [("grids", .arr (r.grids.map PhotoGrid.to_json)),
        ("data", .arr (r.data.map encT))]

/-- Modelled from the spec: the derived serde `Deserialize` for
`ResponsivePhotoGrid`. -/
def ResponsivePhotoGrid.from_json {T : Type} (decT : Json → Option T) (j : Json) :
    Option (ResponsivePhotoGrid T) :=
  match j.field "grids", j.field "data" with
  | some (.arr lg), some (.arr ld) =>
    (match lg.mapM PhotoGrid.from_json, ld.mapM decT with
    | some grids, some data => some { grids := grids, data := data }
    | _, _ => none)
  | _, _ => none

lemma responsive_from_to_json {T : Type} (encT : T → Json)
    (decT : Json → Option T) (hT : ∀ x, decT (encT x) = some x)
    (r : ResponsivePhotoGrid T) :
    ResponsivePhotoGrid.from_json decT (r.to_json encT) = some r := by
  show (match (r.grids.map PhotoGrid.to_json).mapM PhotoGrid.from_json,
      (r.data.map encT).mapM decT with
    | some grids, some data =>
      some ({ grids := grids, data := data } : ResponsivePhotoGrid T)
    | _, _ => none) = some r
  rw [mapM_map_from_to _ _ photo_grid_from_to_json, mapM_map_from_to _ _ hT]

/-- Model of Rust's `str::parse::<usize>` as used by the `FromStr` impl for
`AspectRatio`: an optional leading `+`, then one or more decimal digits,
rejecting values that overflow a 64-bit `usize`. -/
def parse_usize (s : String) : Option Nat :=
  let ds :=
    match s.data with
    | '+' :: rest => rest
    | other => other
  if ds.isEmpty then none
  else if ds.all (fun c => c.isDigit) then
    let v := ds.foldl (fun acc c => acc * 10 + (c.toNat - 48)) 0
    if v < 2 ^ 64 then some v else none
  else none

/-- Rust's `str::split(':')` over the character list: the pieces between
the colons, in order, empty pieces kept. -/
def split_colon_aux : List Char → List Char → List (List Char)
  | [], acc => [acc.reverse]
  | x :: xs, acc =>
    if x = ':' then acc.reverse :: split_colon_aux xs []
    else split_colon_aux xs (x :: acc)

/-- The split of `str::split(':').collect::<Vec<_>>()` as strings. -/
def split_colon (s : String) : List String :=
  (split_colon_aux s.data []).map (fun l => { data := l })

/-- `ParseAspectRatioError` from `grid/src/lib.rs` (the `ParseIntError`
payload is dropped). -/
inductive ParseAspectRatioError where
  | ParseInt
  | Separator
deriving DecidableEq, Repr

/-- The `FromStr` impl for `AspectRatio` in `grid/src/lib.rs` lines 47-65
(the conflicting impl in `grid/src/parse.rs` is not reachable: `parse` is
not declared as a module of the crate).  `split(':')` always yields at
least one part, so the one-part arm is the missing-second-part error. -/
def AspectRatio.from_str (s : String) : Except ParseAspectRatioError AspectRatio :=
  match split_colon s with
  | [] => .error .Separator
  | [_] => .error .Separator
  | [first, second] =>
    (match parse_usize first with
    | none => .error .ParseInt
    | some a =>
      match parse_usize second with
      | none => .error .ParseInt
      | some b => .ok { width := a, height := b })
  | _ => .error .Separator

/-- A placement whose x-span ends at or before another's origin column is
cell-disjoint from it. -/
lemma cell_disjoint_of_x_le {T U : Type} (a : GridContent T) (b : GridContent U)
    (h : a.origin.x + a.size.width ≤ b.origin.x) : cell_disjoint a b := by
  intro x y hc
  have ha : a.origin.x ≤ x ∧ x < a.origin.x + a.size.width ∧
      a.origin.y ≤ y ∧ y < a.origin.y + a.size.height := hc.1
  have hb : b.origin.x ≤ x ∧ x < b.origin.x + b.size.width ∧
      b.origin.y ≤ y ∧ y < b.origin.y + b.size.height := hc.2
  omega

/-- `from_aspect_ratio` with its let-bindings expanded in place. -/
lemma from_aspect_ratio_eq (SIZE : Nat) (ratio : AspectRatio) :
    RoundedAspectRatio.from_aspect_ratio SIZE ratio =
      (if SIZE = 0 then none
       else if (match Orientation.from_aspect_ratio ratio with
                | .Portrait => (ratio.width, ratio.height)
                | .Landscape => (ratio.height, ratio.width)).1 / SIZE = 0 then none
       else some {
         long_edge :=
           (match Orientation.from_aspect_ratio ratio with
            | .Portrait => (ratio.width, ratio.height)
            | .Landscape => (ratio.height, ratio.width)).2 /
             ((match Orientation.from_aspect_ratio ratio with
               | .Portrait => (ratio.width, ratio.height)
               | .Landscape => (ratio.height, ratio.width)).1 / SIZE) +
           (if (match Orientation.from_aspect_ratio ratio with
                | .Portrait => (ratio.width, ratio.height)
                | .Landscape => (ratio.height, ratio.width)).2 %
              ((match Orientation.from_aspect_ratio ratio with
                | .Portrait => (ratio.width, ratio.height)
                | .Landscape => (ratio.height, ratio.width)).1 / SIZE) > 0
            then 1 else 0),
         orientation := Orientation.from_aspect_ratio ratio } :
        Option RoundedAspectRatio) := rfl

/-- `from_aspect_ratio` on a portrait ratio: divisor from the width. -/
lemma from_aspect_ratio_portrait (SIZE : Nat) (ratio : AspectRatio)
    (hor : Orientation.from_aspect_ratio ratio = .Portrait) (hS : ¬ SIZE = 0) :
    RoundedAspectRatio.from_aspect_ratio SIZE ratio =
      (if ratio.width / SIZE = 0 then none
       else some { long_edge := (ratio.height / (ratio.width / SIZE) +
                     (if ratio.height % (ratio.width / SIZE) > 0 then 1 else 0)),
                   orientation := .Portrait }) := by
  rw [from_aspect_ratio_eq, hor, if_neg hS]

/-- `from_aspect_ratio` on a landscape ratio: divisor from the height. -/
lemma from_aspect_ratio_landscape (SIZE : Nat) (ratio : AspectRatio)
    (hor : Orientation.from_aspect_ratio ratio = .Landscape) (hS : ¬ SIZE = 0) :
    RoundedAspectRatio.from_aspect_ratio SIZE ratio =
      (if ratio.height / SIZE = 0 then none
       else some { long_edge := (ratio.width / (ratio.height / SIZE) +
                     (if ratio.width % (ratio.height / SIZE) > 0 then 1 else 0)),
                   orientation := .Landscape }) := by
  rw [from_aspect_ratio_eq, hor, if_neg hS]

/-- Concrete two-placement grid used to instantiate the grow theorem. -/
def c3p : PhotoGrid Nat :=
  { grid := [{ data := 0, size := { width := 2, height := 1 },
               origin := { x := 0, y := 0 } },
             { data := 1, size := { width := 1, height := 2 },
               origin := { x := 2, y := 0 } }],
    width := 4 }

/-- Concrete responsive grid used to instantiate the contents_at theorem. -/
def c6r : ResponsivePhotoGrid Nat :=
  { grids := [{ grid := [{ data := 0, size := { width := 1, height := 1 },
                           origin := { x := 0, y := 0 } }], width := 3 }],
    data := [42] }

/-- The list `c6r.contents_at 0` yields. -/
def c6l : List (Nat × GridContent Nat) :=
  [(42, { data := 0, size := { width := 1, height := 1 },
          origin := { x := 0, y := 0 } })]

/-- Concrete responsive grid used to instantiate the round-trip theorem. -/
def c8r : ResponsivePhotoGrid Nat :=
  { grids := [{ grid := [{ data := 0, size := { width := 2, height := 1 },
                           origin := { x := 0, y := 0 } }], width := 3 }],
    data := [7] }

/-- C1 counterexample: packing the identities 0 and 1, where identity 0 maps
to a 3x1 footprint, into a width-2 grid succeeds and returns a grid whose
only placement carries payload 0: identity 1 appears in no placement, so it
does not appear in exactly one placement of this successful packing.  (The
over-wide item never fits, is appended past the right edge, and the
reconstruction pass silently drops it.) -/
theorem claim_C1_counterexample :
    PhotoGrid.new_with_mapper (List.range 2) 2
        (fun t : Nat => if t = 0 then
          ({ orientation := .Landscape, long_edge := 3 } : NormalizedAspectRatio)
          else { orientation := .Landscape, long_edge := 1 }) =
      some { grid := [{ data := 0, size := { width := 2, height := 2 },
                         origin := { x := 0, y := 0 } }], width := 2 } ∧
    (({ grid := [{ data := 0, size := { width := 2, height := 2 },
                   origin := { x := 0, y := 0 } }], width := 2 } :
        PhotoGrid Nat).grid.map (fun c => c.data)).count 1 = 0 := by
  constructor
  · rw [new_with_mapper_eval]
    decide
  · decide

/-- C1 (amended): for every successful packing of the identities `0..N-1`
into a positive-width grid, every identity appears as the payload of at
most one placement, every payload is an identity below `N`, and the
cell-sets covered by any two distinct placements are disjoint. -/
theorem claim_C1 {σ : Type} [Size σ] (N W : Nat) (cb : Nat → σ)
    (pg : PhotoGrid Nat) (hW : 0 < W)
    (h : PhotoGrid.new_with_mapper (List.range N) W cb = some pg) :
    (∀ k, (pg.grid.map (fun c => c.data)).count k ≤ 1) ∧
    (∀ c ∈ pg.grid, c.data < N) ∧
    pg.grid.Pairwise cell_disjoint := by
  obtain ⟨hnd, hlt, hdisj⟩ := new_with_mapper_ids_spec hW h
  exact ⟨fun k => List.nodup_iff_count_le_one.mp hnd k, hlt, hdisj⟩

/-- Witness instantiating `claim_C1`: two 1x1 items in a width-2 grid. -/
theorem claim_C1_witness :
    (∀ k, ((({ grid := [{ data := 0, size := { width := 1, height := 1 },
                           origin := { x := 0, y := 0 } },
                         { data := 1, size := { width := 1, height := 1 },
                           origin := { x := 1, y := 0 } }], width := 2 } :
        PhotoGrid Nat)).grid.map (fun c => c.data)).count k ≤ 1) ∧
    (∀ c ∈ ({ grid := [{ data := 0, size := { width := 1, height := 1 },
                          origin := { x := 0, y := 0 } },
                        { data := 1, size := { width := 1, height := 1 },
                          origin := { x := 1, y := 0 } }], width := 2 } :
        PhotoGrid Nat).grid, c.data < 2) ∧
    ({ grid := [{ data := 0, size := { width := 1, height := 1 },
                   origin := { x := 0, y := 0 } },
                 { data := 1, size := { width := 1, height := 1 },
                   origin := { x := 1, y := 0 } }], width := 2 } :
        PhotoGrid Nat).grid.Pairwise cell_disjoint :=
  claim_C1 2 2
    (fun _ => ({ orientation := .Landscape, long_edge := 1 } : NormalizedAspectRatio)) _
    (by decide) (by rw [new_with_mapper_eval]; decide)

/-- C2: the bin-packer places each item at the first row-major index of the
currently allocated cells where it fits — `find?` over `available` returns
index `i` exactly when `i` is allocated, the item fits at `i` (neither
crossing the right edge nor covering a non-empty cell, cells beyond the
allocation counting as empty), and it fits at no smaller index; the item is
then inserted at that index, and appended at the end of the allocated cells
when no index fits.  Packing [portrait 1x2, portrait 1x2, landscape 2x1,
landscape 2x1] into a width-4 grid yields the flat row-major occupancy
[0,1,2,2,0,1,3,3]. -/
theorem claim_C2 {σ : Type} [Size σ] :
    (∀ (g : Grid (Option Nat)) (el : σ),
      1 ≤ Size.width el → 1 ≤ Size.height el →
      ((∀ i, g.available.find? (fun e => g.does_fit_at e el) = some i ↔
          (i < g.contents.length ∧ g.does_fit_at i el = true ∧
            ∀ j, j < i → g.does_fit_at j el = false)) ∧
        (∀ i idx, g.available.find? (fun e => g.does_fit_at e el) = some i →
          g.add_step idx el = g.insert_at i idx el) ∧
        (∀ idx, g.available.find? (fun e => g.does_fit_at e el) = none →
          g.add_step idx el =
            (g.extend_to g.contents.length).insert_at g.contents.length idx el))) ∧
    ((Grid.new (Option Nat) 4).add_all
        [({ orientation := .Portrait, long_edge := 2 } : NormalizedAspectRatio),
         { orientation := .Portrait, long_edge := 2 },
         { orientation := .Landscape, long_edge := 2 },
         { orientation := .Landscape, long_edge := 2 }]).map (fun g => g.contents) =
      some [some 0, some 1, some 2, some 2, some 0, some 1, some 3, some 3] := by
  constructor
  · intro g el hw hh
    refine ⟨?_, ?_, ?_⟩
    · intro i
      constructor
      · intro hfind
        obtain ⟨hmem, hfit, hleast⟩ := Grid.find?_sorted_some (g.available_sorted) hfind
        have hi := (g.mem_available i).mp hmem
        obtain ⟨hilen, _⟩ := List.get?_eq_some.mp hi
        refine ⟨hilen, hfit, ?_⟩
        intro j hji
        cases hgj : g.contents.get? j with
        | none =>
          exfalso
          have := List.get?_eq_none.mp hgj
          omega
        | some o =>
          cases o with
          | none => exact hleast j ((g.mem_available j).mpr hgj) hji
          | some v => exact g.occupied_not_fit j hgj el hw hh
      · rintro ⟨hilen, hfit, hleast⟩
        have hmem : i ∈ g.available := by
          rw [g.mem_available]
          cases hgi : g.contents.get? i with
          | none =>
            exfalso
            have := List.get?_eq_none.mp hgi
            omega
          | some o =>
            cases o with
            | none => rfl
            | some v =>
              exfalso
              have hne := g.occupied_not_fit i hgi el hw hh
              rw [hfit] at hne
              exact Bool.noConfusion hne
        exact Grid.find?_sorted_eq_some (g.available_sorted) hmem hfit
          (fun j hj hji => hleast j hji)
    · intro i idx hfind
      unfold Grid.add_step
      rw [hfind]
    · intro idx hfind
      unfold Grid.add_step
      rw [hfind]
  · decide

/-- C3: `grow_non_intersecting` widens exactly those placements for which no
other placement with strictly greater `origin.x` has an overlapping vertical
extent, setting the width to `grid width - origin.x`; for inputs satisfying
the packer's invariants (positive extents, pairwise cell-disjoint) it never
decreases a width, never changes a height or origin, keeps the grid width
and placement count, and the output placements stay pairwise
cell-disjoint. -/
theorem claim_C3 {T : Type} (p : PhotoGrid T)
    (hpos : ∀ c ∈ p.grid, 1 ≤ c.size.width ∧ 1 ≤ c.size.height)
    (hfit : ∀ c ∈ p.grid, c.origin.x + c.size.width ≤ p.width)
    (hdisj : p.grid.Pairwise cell_disjoint) :
    (∀ i item, p.grid.get? i = some item →
      ∃ item2, p.grow_non_intersecting.grid.get? i = some item2 ∧
        item2.origin = item.origin ∧
        item2.size.height = item.size.height ∧
        item.size.width ≤ item2.size.width ∧
        ((∀ j other, p.grid.get? j = some other → j ≠ i →
            item.origin.x < other.origin.x →
            ¬ (other.origin.y < item.origin.y + item.size.height ∧
               item.origin.y < other.origin.y + other.size.height)) →
          item2.size.width = p.width - item.origin.x) ∧
        (¬ (∀ j other, p.grid.get? j = some other → j ≠ i →
            item.origin.x < other.origin.x →
            ¬ (other.origin.y < item.origin.y + item.size.height ∧
               item.origin.y < other.origin.y + other.size.height)) →
          item2 = item)) ∧
    p.grow_non_intersecting.width = p.width ∧
    p.grow_non_intersecting.grid.length = p.grid.length ∧
    p.grow_non_intersecting.grid.Pairwise cell_disjoint := by
  refine ⟨?_, grow_width p, grow_length p, grow_preserves_disjoint p hpos hdisj⟩
  intro i item hget
  have hval : p.grow_non_intersecting.grid.get? i =
      some (if p.should_grow (i, item) = true then grow_upd p.width item else item) := by
    rw [grow_grid_get?, hget]
  by_cases hsg : p.should_grow (i, item) = true
  · rw [if_pos hsg] at hval
    refine ⟨grow_upd p.width item, hval, rfl, rfl, ?_, fun _ => rfl, ?_⟩
    · show item.size.width ≤ p.width - item.origin.x
      have := hfit item (List.get?_mem hget)
      omega
    · intro hncond
      exact absurd ((should_grow_iff p i item).mp hsg) hncond
  · rw [if_neg hsg] at hval
    refine ⟨item, hval, rfl, rfl, le_refl _, ?_, fun _ => rfl⟩
    intro hcond
    exact absurd ((should_grow_iff p i item).mpr hcond) hsg

/-- Witness instantiating `claim_C3` at the concrete grid `c3p`. -/
theorem claim_C3_witness :
    (∀ c ∈ c3p.grid, 1 ≤ c.size.width ∧ 1 ≤ c.size.height) ∧
    (∀ c ∈ c3p.grid, c.origin.x + c.size.width ≤ c3p.width) ∧
    c3p.grid.Pairwise cell_disjoint ∧
    ((∀ i item, c3p.grid.get? i = some item →
      ∃ item2, c3p.grow_non_intersecting.grid.get? i = some item2 ∧
        item2.origin = item.origin ∧
        item2.size.height = item.size.height ∧
        item.size.width ≤ item2.size.width ∧
        ((∀ j other, c3p.grid.get? j = some other → j ≠ i →
            item.origin.x < other.origin.x →
            ¬ (other.origin.y < item.origin.y + item.size.height ∧
               item.origin.y < other.origin.y + other.size.height)) →
          item2.size.width = c3p.width - item.origin.x) ∧
        (¬ (∀ j other, c3p.grid.get? j = some other → j ≠ i →
            item.origin.x < other.origin.x →
            ¬ (other.origin.y < item.origin.y + item.size.height ∧
               item.origin.y < other.origin.y + other.size.height)) →
          item2 = item)) ∧
    c3p.grow_non_intersecting.width = c3p.width ∧
    c3p.grow_non_intersecting.grid.length = c3p.grid.length ∧
    c3p.grow_non_intersecting.grid.Pairwise cell_disjoint) := by
  have hpos : ∀ c ∈ c3p.grid, 1 ≤ c.size.width ∧ 1 ≤ c.size.height := by decide
  have hfit : ∀ c ∈ c3p.grid, c.origin.x + c.size.width ≤ c3p.width := by decide
  have hdisj : c3p.grid.Pairwise cell_disjoint := by
    refine List.pairwise_cons.mpr ⟨?_, List.pairwise_singleton _ _⟩
    intro b hb
    rw [List.mem_singleton] at hb
    subst hb
    exact cell_disjoint_of_x_le _ _ (by decide)
  exact ⟨hpos, hfit, hdisj, claim_C3 c3p hpos hfit hdisj⟩

/-- C4: whenever `SIZE` is positive and at most the orientation-ordered
smaller component, `from_aspect_ratio` succeeds with
`long_edge = max / (min / SIZE)` rounded up on any nonzero remainder
(equivalently, ceiling division by the divisor `min / SIZE`), and
`width`/`height` return `SIZE` on the short edge and `long_edge` on the
long edge; in particular 856:1280 with SIZE = 2 gives width 2 and
height 3. -/
theorem claim_C4 :
    (∀ (SIZE : Nat) (ratio : AspectRatio), 0 < SIZE →
      SIZE ≤ min ratio.width ratio.height →
      ∃ r, RoundedAspectRatio.from_aspect_ratio SIZE ratio = some r ∧
        r.long_edge =
          (max ratio.width ratio.height + min ratio.width ratio.height / SIZE - 1) /
            (min ratio.width ratio.height / SIZE) ∧
        (ratio.width ≤ ratio.height →
          r.width SIZE = SIZE ∧ r.height SIZE = r.long_edge) ∧
        (ratio.height < ratio.width →
          r.width SIZE = r.long_edge ∧ r.height SIZE = SIZE)) ∧
    (RoundedAspectRatio.from_aspect_ratio 2 { width := 856, height := 1280 }).map
      (fun r => (r.width 2, r.height 2)) = some (2, 3) := by
  refine ⟨?_, by decide⟩
  intro SIZE ratio hS hmin
  by_cases hwh : ratio.width ≤ ratio.height
  · have hor := (orientation_from_aspect_ratio_iff ratio).1.mpr hwh
    have hminw : min ratio.width ratio.height = ratio.width := Nat.min_eq_left hwh
    have hmaxh : max ratio.width ratio.height = ratio.height := Nat.max_eq_right hwh
    rw [hminw] at hmin
    have hd : 0 < ratio.width / SIZE := Nat.div_pos hmin hS
    refine ⟨{ long_edge := (ratio.height / (ratio.width / SIZE) +
                (if ratio.height % (ratio.width / SIZE) > 0 then 1 else 0)),
              orientation := .Portrait }, ?_, ?_, ?_, ?_⟩
    · rw [from_aspect_ratio_portrait SIZE ratio hor (by omega),
        if_neg (Nat.pos_iff_ne_zero.mp hd)]
    · show ratio.height / (ratio.width / SIZE) +
          (if ratio.height % (ratio.width / SIZE) > 0 then 1 else 0) = _
      rw [hminw, hmaxh]
      exact div_round_up ratio.height (ratio.width / SIZE) hd
    · intro _
      exact ⟨rfl, rfl⟩
    · intro hlt
      omega
  · push_neg at hwh
    have hor := (orientation_from_aspect_ratio_iff ratio).2.mpr hwh
    have hminh : min ratio.width ratio.height = ratio.height :=
      Nat.min_eq_right (by omega)
    have hmaxw : max ratio.width ratio.height = ratio.width :=
      Nat.max_eq_left (by omega)
    rw [hminh] at hmin
    have hd : 0 < ratio.height / SIZE := Nat.div_pos hmin hS
    refine ⟨{ long_edge := (ratio.width / (ratio.height / SIZE) +
                (if ratio.width % (ratio.height / SIZE) > 0 then 1 else 0)),
              orientation := .Landscape }, ?_, ?_, ?_, ?_⟩
    · rw [from_aspect_ratio_landscape SIZE ratio hor (by omega),
        if_neg (Nat.pos_iff_ne_zero.mp hd)]
    · show ratio.width / (ratio.height / SIZE) +
          (if ratio.width % (ratio.height / SIZE) > 0 then 1 else 0) = _
      rw [hminh, hmaxw]
      exact div_round_up ratio.width (ratio.height / SIZE) hd
    · intro hle
      omega
    · intro _
      exact ⟨rfl, rfl⟩

/-- C5 counterexample: a square aspect ratio (1:1) is mapped to Portrait by
`Orientation::from_aspect_ratio`, refuting that every width ≥ height input
derives Landscape. -/
theorem claim_C5_counterexample :
    Orientation.from_aspect_ratio { width := 1, height := 1 } = .Portrait ∧
    ¬ (∀ ratio : AspectRatio, ratio.height ≤ ratio.width →
        Orientation.from_aspect_ratio ratio = .Landscape) := by
  refine ⟨by decide, ?_⟩
  intro h
  exact absurd (h { width := 1, height := 1 } (by decide)) (by decide)

/-- C5 (amended): `Size::orientation` is Landscape exactly when
width ≥ height (a square Size is Landscape), but
`Orientation::from_aspect_ratio` is Landscape exactly when width > height:
a square aspect ratio is Portrait. -/
theorem claim_C5 {σ : Type} [Size σ] :
    (∀ s : σ,
      (Size.orientation s = .Landscape ↔ Size.height s ≤ Size.width s) ∧
      (Size.orientation s = .Portrait ↔ Size.width s < Size.height s)) ∧
    (∀ ratio : AspectRatio,
      (Orientation.from_aspect_ratio ratio = .Landscape ↔
        ratio.height < ratio.width) ∧
      (Orientation.from_aspect_ratio ratio = .Portrait ↔
        ratio.width ≤ ratio.height)) :=
  ⟨fun s => ⟨(size_orientation_iff s).1, (size_orientation_iff s).2⟩,
   fun ratio => ⟨(orientation_from_aspect_ratio_iff ratio).2,
     (orientation_from_aspect_ratio_iff ratio).1⟩⟩

/-- C6 counterexample: with items [0, 1, 2] (two 2x1 items and one 1x1) and
breakpoints of widths 4 and 3, `contents_at 1` pairs slot 1 of the width-4
grid with item 1 but slot 1 of the width-3 grid with item 2: the entries at
a fixed `n` are not the placements of one logical item across breakpoints. -/
theorem claim_C6_counterexample :
    (ResponsivePhotoGrid.new [0, 1, 2] [4, 3]
        (fun t _ => if t ≤ 1 then
          ({ orientation := .Landscape, long_edge := 2 } : NormalizedAspectRatio)
          else { orientation := .Landscape, long_edge := 1 })
        { orientation := .Landscape, long_edge := 1 }).bind
      (fun r => r.contents_at 1) =
      some [(1, { data := 1, size := { width := 2, height := 1 },
                  origin := { x := 2, y := 0 } }),
            (2, { data := 2, size := { width := 1, height := 1 },
                  origin := { x := 2, y := 0 } })] ∧
    ¬ (∀ l : List (Nat × GridContent Nat),
        (ResponsivePhotoGrid.new [0, 1, 2] [4, 3]
            (fun t _ => if t ≤ 1 then
              ({ orientation := .Landscape, long_edge := 2 } : NormalizedAspectRatio)
              else { orientation := .Landscape, long_edge := 1 })
            { orientation := .Landscape, long_edge := 1 }).bind
          (fun r => r.contents_at 1) = some l →
        ∀ pr ∈ l, pr.1 = 1) := by
  have heval : (ResponsivePhotoGrid.new [0, 1, 2] [4, 3]
      (fun t _ => if t ≤ 1 then
        ({ orientation := .Landscape, long_edge := 2 } : NormalizedAspectRatio)
        else { orientation := .Landscape, long_edge := 1 })
      { orientation := .Landscape, long_edge := 1 }).bind
      (fun r => r.contents_at 1) =
      some [(1, { data := 1, size := { width := 2, height := 1 },
                  origin := { x := 2, y := 0 } }),
            (2, { data := 2, size := { width := 1, height := 1 },
                  origin := { x := 2, y := 0 } })] := by
    rw [responsive_new_eval]
    decide
  refine ⟨heval, ?_⟩
  intro h
  have h2 := h _ heval
    (2, { data := 2, size := { width := 1, height := 1 },
          origin := { x := 2, y := 0 } }) (by decide)
  exact absurd h2 (by decide)

/-- C6 (amended): a successful `contents_at n` has one entry per breakpoint
grid owning an `n`-th placement in emission order — the `i`-th entry is that
grid's `n`-th placement paired with the backing item its payload references;
the payloads at a fixed `n` need not agree across breakpoints. -/
theorem claim_C6 {T : Type} (r : ResponsivePhotoGrid T) (n : Nat)
    (l : List (T × GridContent Nat)) (h : r.contents_at n = some l) :
    l.length = (r.grids.filterMap (fun g => g.grid.get? n)).length ∧
    ∀ i pr, l.get? i = some pr →
      (r.grids.filterMap (fun g => g.grid.get? n)).get? i = some pr.2 ∧
      r.data.get? pr.2.data = some pr.1 := by
  unfold ResponsivePhotoGrid.contents_at at h
  obtain ⟨hlen, hpt⟩ := mapM_option_spec _ _ _ h
  refine ⟨hlen, ?_⟩
  intro i pr hip
  obtain ⟨c, hc, hfc⟩ := hpt i pr hip
  cases hd : r.data.get? c.data with
  | none =>
    rw [hd] at hfc
    exact Option.noConfusion hfc
  | some x =>
    rw [hd] at hfc
    replace hfc : some (x, c) = some pr := hfc
    rw [← Option.some.inj hfc]
    exact ⟨hc, hd⟩

/-- Witness instantiating `claim_C6` at the concrete grid `c6r`. -/
theorem claim_C6_witness :
    c6l.length = (c6r.grids.filterMap (fun g => g.grid.get? 0)).length ∧
    ∀ i pr, c6l.get? i = some pr →
      (c6r.grids.filterMap (fun g => g.grid.get? 0)).get? i = some pr.2 ∧
      c6r.data.get? pr.2.data = some pr.1 :=
  claim_C6 c6r 0 c6l (by decide)

/-- C7 counterexample: "1:2x" has trailing non-numeric content after the
second number, and parsing it fails with ParseInt — not Separator as
claimed: the string still splits into exactly two parts on the colon, and
the second part fails integer parsing. -/
theorem claim_C7_counterexample :
    AspectRatio.from_str "1:2x" = .error .ParseInt ∧
    ¬ (AspectRatio.from_str "1:2x" = .error .Separator) := by
  refine ⟨rfl, fun h => ?_⟩
  have h2 : (Except.error ParseAspectRatioError.ParseInt :
      Except ParseAspectRatioError AspectRatio) = .error .Separator := h
  injection h2 with h3
  exact ParseAspectRatioError.noConfusion h3

/-- C7 (amended): parsing returns Separator exactly when splitting on the
colon does not give two parts (colon missing or duplicated), ParseInt
exactly when it gives two parts and either side fails usize parsing
(trailing content after a number lands here), and succeeds exactly when
both sides parse — it never silently defaults. -/
theorem claim_C7 (s : String) :
    (AspectRatio.from_str s = .error .Separator ↔ (split_colon s).length ≠ 2) ∧
    (AspectRatio.from_str s = .error .ParseInt ↔
      ∃ a b, split_colon s = [a, b] ∧
        (parse_usize a = none ∨ parse_usize b = none)) ∧
    (∀ r, AspectRatio.from_str s = .ok r ↔
      ∃ a b, split_colon s = [a, b] ∧
        parse_usize a = some r.width ∧ parse_usize b = some r.height) := by
  rcases hsp : split_colon s with _ | ⟨a, _ | ⟨b, _ | ⟨c, rest⟩⟩⟩
  · have hfs : AspectRatio.from_str s = .error .Separator := by
      unfold AspectRatio.from_str
      rw [hsp]
    rw [hfs]
    refine ⟨by simp, ⟨?_, ?_⟩, fun r => ⟨?_, ?_⟩⟩
    · intro hpe
      injection hpe with h2
      exact ParseAspectRatioError.noConfusion h2
    · rintro ⟨a, b, hab, _⟩
      exact List.noConfusion hab
    · intro hok
      exact Except.noConfusion hok
    · rintro ⟨a, b, hab, _⟩
      exact List.noConfusion hab
  · have hfs : AspectRatio.from_str s = .error .Separator := by
      unfold AspectRatio.from_str
      rw [hsp]
    rw [hfs]
    refine ⟨by simp, ⟨?_, ?_⟩, fun r => ⟨?_, ?_⟩⟩
    · intro hpe
      injection hpe with h2
      exact ParseAspectRatioError.noConfusion h2
    · rintro ⟨a2, b2, hab, _⟩
      injection hab with _ h2
      exact List.noConfusion h2
    · intro hok
      exact Except.noConfusion hok
    · rintro ⟨a2, b2, hab, _⟩
      injection hab with _ h2
      exact List.noConfusion h2
  · cases hpa : parse_usize a with
    | none =>
      have hfs : AspectRatio.from_str s = .error .ParseInt := by
        unfold AspectRatio.from_str
        rw [hsp]
        show (match parse_usize a with
          | none => Except.error ParseAspectRatioError.ParseInt
          | some a2 =>
            match parse_usize b with
            | none => Except.error ParseAspectRatioError.ParseInt
            | some b2 =>
              Except.ok (AspectRatio.mk a2 b2)) = _
        rw [hpa]
      rw [hfs]
      refine ⟨?_, ⟨?_, ?_⟩, fun r => ⟨?_, ?_⟩⟩
      · constructor
        · intro hpe
          injection hpe with h2
          exact ParseAspectRatioError.noConfusion h2
        · intro hl
          exact absurd rfl hl
      · intro _
        exact ⟨a, b, rfl, Or.inl hpa⟩
      · intro _
        rfl
      · intro hok
        exact Except.noConfusion hok
      · rintro ⟨a2, b2, hab, h1, h2⟩
        injection hab with ha2 hb2
        subst ha2
        rw [hpa] at h1
        exact Option.noConfusion h1
    | some va =>
      cases hpb : parse_usize b with
      | none =>
        have hfs : AspectRatio.from_str s = .error .ParseInt := by
          unfold AspectRatio.from_str
          rw [hsp]
          show (match parse_usize a with
            | none => Except.error ParseAspectRatioError.ParseInt
            | some a2 =>
              match parse_usize b with
              | none => Except.error ParseAspectRatioError.ParseInt
              | some b2 =>
                Except.ok (AspectRatio.mk a2 b2)) = _
          rw [hpa, hpb]
        rw [hfs]
        refine ⟨?_, ⟨?_, ?_⟩, fun r => ⟨?_, ?_⟩⟩
        · constructor
          · intro hpe
            injection hpe with h2
            exact ParseAspectRatioError.noConfusion h2
          · intro hl
            exact absurd rfl hl
        · intro _
          exact ⟨a, b, rfl, Or.inr hpb⟩
        · intro _
          rfl
        · intro hok
          exact Except.noConfusion hok
        · rintro ⟨a2, b2, hab, h1, h2⟩
          injection hab with ha2 hb2
          injection hb2 with hb3 _
          subst hb3
          rw [hpb] at h2
          exact Option.noConfusion h2
      | some vb =>
        have hfs : AspectRatio.from_str s = .ok { width := va, height := vb } := by
          unfold AspectRatio.from_str
          rw [hsp]
          show (match parse_usize a with
            | none => Except.error ParseAspectRatioError.ParseInt
            | some a2 =>
              match parse_usize b with
              | none => Except.error ParseAspectRatioError.ParseInt
              | some b2 =>
                Except.ok (AspectRatio.mk a2 b2)) = _
          rw [hpa, hpb]
        rw [hfs]
        refine ⟨?_, ⟨?_, ?_⟩, fun r => ⟨?_, ?_⟩⟩
        · constructor
          · intro hok
            exact Except.noConfusion hok
          · intro hl
            exact absurd rfl hl
        · intro hpe
          exact Except.noConfusion hpe
        · rintro ⟨a2, b2, hab, hor⟩
          injection hab with ha2 hb2
          injection hb2 with hb3 _
          subst ha2
          subst hb3
          rcases hor with h1 | h1
          · rw [hpa] at h1
            exact Option.noConfusion h1
          · rw [hpb] at h1
            exact Option.noConfusion h1
        · intro hok
          injection hok with h2
          refine ⟨a, b, rfl, ?_, ?_⟩
          · have hw : parse_usize a = some r.width := by
              rw [hpa, ← h2]
            exact hw
          · have hh : parse_usize b = some r.height := by
              rw [hpb, ← h2]
            exact hh
        · rintro ⟨a2, b2, hab, h1, h2⟩
          injection hab with ha2 hb2
          injection hb2 with hb3 _
          subst ha2
          subst hb3
          rw [hpa] at h1
          rw [hpb] at h2
          obtain ⟨rwid, rhei⟩ := r
          have h1b : va = rwid := Option.some.inj h1
          have h2b : vb = rhei := Option.some.inj h2
          rw [h1b, h2b]
  · have hfs : AspectRatio.from_str s = .error .Separator := by
      unfold AspectRatio.from_str
      rw [hsp]
    rw [hfs]
    refine ⟨?_, ⟨?_, ?_⟩, fun r => ⟨?_, ?_⟩⟩
    · constructor
      · intro _
        simp
      · intro _
        rfl
    · intro hpe
      injection hpe with h2
      exact ParseAspectRatioError.noConfusion h2
    · rintro ⟨a2, b2, hab, _⟩
      injection hab with _ h2
      injection h2 with _ h3
      exact List.noConfusion h3
    · intro hok
      exact Except.noConfusion hok
    · rintro ⟨a2, b2, hab, _⟩
      injection hab with _ h2
      injection h2 with _ h3
      exact List.noConfusion h3

/-- C8: serializing a `ResponsivePhotoGrid` to the structured document and
deserializing it back yields a structurally identical instance, whenever the
item codec round-trips (the breakpoint grids, each width, each ordered
placement list and the backing data array are all reproduced). -/
theorem claim_C8 {T : Type} (encT : T → Json) (decT : Json → Option T)
    (hT : ∀ x, decT (encT x) = some x) (r : ResponsivePhotoGrid T) :
    ResponsivePhotoGrid.from_json decT (r.to_json encT) = some r :=
  responsive_from_to_json encT decT hT r

/-- Witness instantiating `claim_C8` at the concrete grid `c8r` with the
numeric item codec. -/
theorem claim_C8_witness :
    ResponsivePhotoGrid.from_json json_nat (c8r.to_json Json.num) = some c8r :=
  claim_C8 Json.num json_nat (fun _ => rfl) c8r

/-- C9: every placement of a successful packing satisfies
`origin.x + size.width ≤ grid width`, and the bound still holds for every
placement after `grow_non_intersecting`. -/
theorem claim_C9 {T σ : Type} [Size σ] (photos : List T) (W : Nat) (cb : T → σ)
    (pg : PhotoGrid T) (hW : 0 < W)
    (h : PhotoGrid.new_with_mapper photos W cb = some pg) :
    (∀ c ∈ pg.grid, c.origin.x + c.size.width ≤ W) ∧
    (∀ c ∈ pg.grow_non_intersecting.grid, c.origin.x + c.size.width ≤ W) := by
  have hfits := new_with_mapper_fits hW h
  have hpw : pg.width = W := by
    obtain ⟨grid, st, _, _, hpg⟩ := new_with_mapper_parts h
    rw [hpg]
  refine ⟨fun c hc => (hfits c hc).1, ?_⟩
  intro c hc
  obtain ⟨i, hi⟩ := List.mem_iff_get?.mp hc
  obtain ⟨a, hga, hcase⟩ := grow_entry pg i c hi
  have hfa := hfits a (List.get?_mem hga)
  obtain ⟨ha1, ha2, ha3⟩ := hfa
  rcases hcase with ⟨_, rfl⟩ | ⟨_, rfl⟩
  · show a.origin.x + (pg.width - a.origin.x) ≤ W
    rw [hpw]
    omega
  · exact ha1

/-- Witness instantiating `claim_C9`: one 1x1 item in a width-2 grid. -/
theorem claim_C9_witness :
    (∀ c ∈ ({ grid := [{ data := 7, size := { width := 1, height := 1 },
                          origin := { x := 0, y := 0 } }], width := 2 } :
        PhotoGrid Nat).grid, c.origin.x + c.size.width ≤ 2) ∧
    (∀ c ∈ ({ grid := [{ data := 7, size := { width := 1, height := 1 },
                          origin := { x := 0, y := 0 } }], width := 2 } :
        PhotoGrid Nat).grow_non_intersecting.grid,
      c.origin.x + c.size.width ≤ 2) :=
  claim_C9 [7] 2
    (fun _ => ({ orientation := .Landscape, long_edge := 1 } : NormalizedAspectRatio)) _
    (by decide) (by rw [new_with_mapper_eval]; decide)

/-- C10: when the orientation-ordered smaller component is below `SIZE`, the
divisor `min / SIZE` is zero and `from_aspect_ratio` fails (the source
divides by zero and panics, modelled by `none`); conversely, with
`0 < SIZE ≤ min` the conversion always returns a footprint. -/
theorem claim_C10 (SIZE : Nat) (ratio : AspectRatio) :
    (min ratio.width ratio.height < SIZE →
      min ratio.width ratio.height / SIZE = 0 ∧
      RoundedAspectRatio.from_aspect_ratio SIZE ratio = none) ∧
    (0 < SIZE → SIZE ≤ min ratio.width ratio.height →
      (RoundedAspectRatio.from_aspect_ratio SIZE ratio).isSome = true) := by
  constructor
  · intro h
    have hS : ¬ SIZE = 0 := by omega
    have hdiv : min ratio.width ratio.height / SIZE = 0 := Nat.div_eq_of_lt h
    refine ⟨hdiv, ?_⟩
    by_cases hwh : ratio.width ≤ ratio.height
    · have hor := (orientation_from_aspect_ratio_iff ratio).1.mpr hwh
      rw [from_aspect_ratio_portrait SIZE ratio hor hS,
        if_pos (show ratio.width / SIZE = 0 from by
          rw [Nat.min_eq_left hwh] at hdiv
          exact hdiv)]
    · push_neg at hwh
      have hor := (orientation_from_aspect_ratio_iff ratio).2.mpr hwh
      rw [from_aspect_ratio_landscape SIZE ratio hor hS,
        if_pos (show ratio.height / SIZE = 0 from by
          rw [Nat.min_eq_right (by omega)] at hdiv
          exact hdiv)]
  · intro hS hmin
    by_cases hwh : ratio.width ≤ ratio.height
    · have hor := (orientation_from_aspect_ratio_iff ratio).1.mpr hwh
      rw [Nat.min_eq_left hwh] at hmin
      rw [from_aspect_ratio_portrait SIZE ratio hor (by omega),
        if_neg (Nat.pos_iff_ne_zero.mp (Nat.div_pos hmin hS))]
      rfl
    · push_neg at hwh
      have hor := (orientation_from_aspect_ratio_iff ratio).2.mpr hwh
      rw [Nat.min_eq_right (by omega)] at hmin
      rw [from_aspect_ratio_landscape SIZE ratio hor (by omega),
        if_neg (Nat.pos_iff_ne_zero.mp (Nat.div_pos hmin hS))]
      rfl

end PersonalSite
